import Mathlib

/-!
A shallow embedding of the execution-orchestration layer of the
wasm-compilers playground (browser-hosted multi-language code runner).

Each namespace embeds one source component:

* JsWorker  — public/js-worker.js (sandboxed console, message handler)
* JsExec    — app/hooks/useJsExecutor.ts (worker lifecycle, 30 s timeout)
* JavaApi   — src/app/hooks/useJavaExecutor.ts executeJavaAPI (remote service)
* Hybrid    — src/app/hooks/useJavaExecutor.ts executeJava path selection
* CExec     — src/app/hooks/useCExecutor.ts (initCompiler + executeC)
* Wcc       — src/app/hooks/useCExecutor.ts WccCompiler message correlation
* PyPkg     — app/hooks/usePythonExecutor.ts loadPackages
* PyCapture — the generated Python capture program in executePython
* PyBoot    — app/hooks/usePythonExecutor.ts loadPyodide (interleaved)

External collaborators (workers, the remote compile service, Pyodide's
package installer, the user program itself) are modelled as explicit
behaviour parameters; the adapter logic itself is translated statement by
statement from the TypeScript / JavaScript source.
-/

/-- The kind tag of one captured Output (`type` field in the source). -/
inductive OutputKind
  | output
  | error
  | info
  | image
deriving DecidableEq, Repr

/-- One typed unit of captured program result, `{type, content}`. -/
structure Output where
  type : OutputKind
  content : String
deriving DecidableEq, Repr

/-- JavaScript truthiness of a string: truthy iff non-empty. -/
def jsTruthy (s : String) : Bool := !s.isEmpty

/-- JavaScript truthiness of a nullable string (`null`/`undefined` and the
empty string are falsy). -/
def jsTruthyOpt : Option String → Bool
  | none => false
  | some s => jsTruthy s

namespace JsWorker

/-- `args.map(format).join(" ")` in the sandboxed console: the per-argument
formatting (String/JSON.stringify) is opaque here, each argument is carried
as its already-formatted text. -/
def joinArgs (args : List String) : String := String.intercalate " " args

/-- One call the user code makes on the sandboxed console object that
`js-worker.js` passes to the compiled AsyncFunction. -/
inductive ConsoleCall
  | log (args : List String)
  | errorCall (args : List String)
  | warn (args : List String)
  | info (args : List String)
deriving DecidableEq, Repr

/-- Effect of one console call on the `(logs, errors)` accumulators:
`log` appends to logs, `error` appends to errors, `warn` and `info`
append to logs with their emoji prefixes (js-worker.js lines 11-32). -/
def pushCall (acc : List String × List String) (c : ConsoleCall) :
    List String × List String :=
  match c with
  | .log args => (acc.1 ++ [joinArgs args], acc.2)
  | .errorCall args => (acc.1, acc.2 ++ [joinArgs args])
  | .warn args => (acc.1 ++ ["⚠️ " ++ joinArgs args], acc.2)
  | .info args => (acc.1 ++ ["ℹ️ " ++ joinArgs args], acc.2)

/-- The `logs`/`errors` arrays after the user code ran its console calls. -/
def collect (calls : List ConsoleCall) : List String × List String :=
  calls.foldl pushCall ([], [])

/-- Observable behaviour of one run of user code that completes without
throwing: the console calls it made, in program order, and its completion
value (`none` models `undefined`, `some r` a defined value already
formatted by the worker's stringifier). -/
structure CodeRun where
  calls : List ConsoleCall
  result : Option String
deriving Repr

/-- An exception escaping the user code (`error.name`, `error.message`). -/
structure ThrownError where
  name : String
  message : String
deriving Repr

/-- `self.onmessage` of js-worker.js: on normal completion transfer `logs`
(with the completion value appended when not undefined) then `errors` into
`outputs`, substituting "(no output)" for an empty list; on a throw the
single error output. Returns the `success` flag and the posted outputs. -/
def runMessageHandler (run : CodeRun) (thrown : Option ThrownError) :
    Bool × List Output :=
  match thrown with
  | some e => (false, [⟨.error, e.name ++ ": " ++ e.message⟩])
  | none =>
    let lt := collect run.calls
    let logs := lt.1 ++ (match run.result with | some r => [r] | none => [])
    let outputs := logs.map (fun s => Output.mk .output s)
      ++ lt.2.map (fun s => Output.mk .error s)
    (true, if outputs.length = 0 then [⟨.output, "(no output)"⟩] else outputs)

/-- Helper: in a concatenation of all-`output` entries followed by
all-`error` entries, every `output` index precedes every `error` index. -/
theorem outputs_before_errors (A B : List Output)
    (hA : ∀ o ∈ A, o.type = .output) (hB : ∀ o ∈ B, o.type = .error)
    (i j : ℕ) (o e : Output)
    (ho : (A ++ B).get? i = some o) (he : (A ++ B).get? j = some e)
    (hto : o.type = .output) (hte : e.type = .error) : i < j := by
  have hiA : i < A.length := by
    by_contra hcon
    push_neg at hcon
    rw [List.get?_append_right hcon] at ho
    have hmem : o ∈ B := List.get?_mem ho
    have := hB o hmem
    rw [this] at hto
    exact absurd hto (by simp)
  have hjA : ¬ j < A.length := by
    intro hcon
    rw [List.get?_append hcon] at he
    have hmem : e ∈ A := List.get?_mem he
    have := hA e hmem
    rw [this] at hte
    exact absurd hte (by simp)
  omega

end JsWorker

/-- C10: in every Output sequence the JavaScript sandbox worker posts for
code that completes without throwing, every entry captured from
console.log/warn/info (kind `output`) precedes every entry captured from
console.error (kind `error`) regardless of how the user code interleaved
the calls, and a non-undefined completion value appears as the final
`output`-kind entry. -/
theorem claim_C10 (run : JsWorker.CodeRun) :
    (∀ i j o e, (JsWorker.runMessageHandler run none).2.get? i = some o →
      (JsWorker.runMessageHandler run none).2.get? j = some e →
      o.type = .output → e.type = .error → i < j)
    ∧ (∀ r, run.result = some r →
        ((JsWorker.runMessageHandler run none).2.filter
          (fun o => o.type == .output)).getLast? = some ⟨.output, r⟩) := by
  constructor
  · intro i j o e ho he hto hte
    simp only [JsWorker.runMessageHandler] at ho he
    by_cases hz :
        ((((JsWorker.collect run.calls).1 ++
            (match run.result with | some r => [r] | none => [])).map
            (fun s => Output.mk .output s)) ++
          (JsWorker.collect run.calls).2.map
            (fun s => Output.mk .error s)).length = 0
    · exfalso
      rw [if_pos hz] at he
      have hj0 : j = 0 ∧ e = ⟨.output, "(no output)"⟩ := by
        cases j with
        | zero => simp at he; exact ⟨rfl, he.symm⟩
        | succ n => simp at he
      rw [hj0.2] at hte
      exact absurd hte (by simp)
    · rw [if_neg hz] at ho he
      exact JsWorker.outputs_before_errors _ _
        (by intro x hx; rw [List.mem_map] at hx; obtain ⟨s, -, rfl⟩ := hx; rfl)
        (by intro x hx; rw [List.mem_map] at hx; obtain ⟨s, -, rfl⟩ := hx; rfl)
        i j o e ho he hto hte
  · intro r hr
    simp only [JsWorker.runMessageHandler, hr]
    have hne : ¬ ((((JsWorker.collect run.calls).1 ++ [r]).map
          (fun s => Output.mk .output s)) ++
        (JsWorker.collect run.calls).2.map
          (fun s => Output.mk .error s)).length = 0 := by
      simp
    rw [if_neg hne]
    rw [List.filter_append]
    have h2 : ((JsWorker.collect run.calls).2.map
        (fun s => Output.mk .error s)).filter (fun o => o.type == .output)
          = [] := by
      rw [List.filter_eq_nil_iff]
      intro x hx
      rw [List.mem_map] at hx
      obtain ⟨s, -, rfl⟩ := hx
      simp
    have h1 : (((JsWorker.collect run.calls).1 ++ [r]).map
        (fun s => Output.mk .output s)).filter (fun o => o.type == .output)
          = ((JsWorker.collect run.calls).1 ++ [r]).map
            (fun s => Output.mk .output s) := by
      apply List.filter_eq_self.mpr
      intro x hx
      rw [List.mem_map] at hx
      obtain ⟨s, -, rfl⟩ := hx
      rfl
    rw [h2, h1, List.append_nil, List.map_append]
    simp

/-- Witness for C10 at a concrete run: `console.error("e")` issued before
`console.log("a")`, completion value `"v"`. -/
theorem claim_C10_witness :
    (∀ i j o e, (JsWorker.runMessageHandler
          ⟨[.errorCall ["e"], .log ["a"]], some "v"⟩ none).2.get? i = some o →
      (JsWorker.runMessageHandler
          ⟨[.errorCall ["e"], .log ["a"]], some "v"⟩ none).2.get? j = some e →
      o.type = .output → e.type = .error → i < j)
    ∧ ((JsWorker.runMessageHandler
          ⟨[.errorCall ["e"], .log ["a"]], some "v"⟩ none).2.filter
          (fun o => o.type == .output)).getLast? = some ⟨.output, "v"⟩ :=
  ⟨(claim_C10 ⟨[.errorCall ["e"], .log ["a"]], some "v"⟩).1,
   (claim_C10 ⟨[.errorCall ["e"], .log ["a"]], some "v"⟩).2 "v" rfl⟩

namespace JsExec

/-- The resolution the promise inside executeJs observes for one run:
the worker posted a message (its outputs), the worker's onerror handler
fired, or the 30 000 ms timer fired first. -/
inductive WorkerOutcome
  | message (outputs : List Output)
  | workerFailure (msg : String)
  | timeoutFired
deriving Repr

/-- The hard wall-clock limit passed to setTimeout in executeJs (ms). -/
def timeoutMs : Nat := 30000

/-- How executeJs settles its promise for each outcome
(useJsExecutor.ts lines 23-48); it only ever resolves, never rejects. -/
def settle : WorkerOutcome → List Output
  | .message outs => outs
  | .workerFailure m => [⟨.error, "Worker error: " ++ m⟩]
  | .timeoutFired =>
      [⟨.error, "Execution timeout: Code took longer than 30 seconds to execute"⟩]

/-- The adapter's mutable state across runs: the workerRef, a counter
producing fresh worker identities, and the set of terminated workers. -/
structure AdapterState where
  workerRef : Option Nat
  nextWorker : Nat
  terminated : List Nat
deriving DecidableEq, Repr

def initialState : AdapterState := ⟨none, 0, []⟩

/-- Head of executeJs: terminate the existing worker if any, create a new
worker and store it in workerRef (lines 13-20).  Returns the new state and
the identity of the worker serving this run. -/
def beginRun (s : AdapterState) : AdapterState × Nat :=
  let t := match s.workerRef with
    | some w => s.terminated ++ [w]
    | none => s.terminated
  (⟨some s.nextWorker, s.nextWorker + 1, t⟩, s.nextWorker)

/-- Settling of one run (lines 23-48): onmessage and onerror terminate the
worker and null workerRef; the timeout path terminates the worker but does
not null workerRef. -/
def finishRun (s : AdapterState) (w : Nat) (o : WorkerOutcome) :
    AdapterState × List Output :=
  match o with
  | .message _ => (⟨none, s.nextWorker, s.terminated ++ [w]⟩, settle o)
  | .workerFailure _ => (⟨none, s.nextWorker, s.terminated ++ [w]⟩, settle o)
  | .timeoutFired => (⟨s.workerRef, s.nextWorker, s.terminated ++ [w]⟩, settle o)

/-- Well-formedness: every worker identity ever used is below the counter. -/
def WF (s : AdapterState) : Prop :=
  (∀ w ∈ s.terminated, w < s.nextWorker) ∧
  (∀ w, s.workerRef = some w → w < s.nextWorker)

end JsExec

/-- C9: the in-process JavaScript adapter enforces a 30-second wall-clock
timeout.  For a run whose code never completes (the timer fires), execute
resolves with exactly one Output, of kind error, whose content mentions the
timeout; the worker serving the run is terminated; and a subsequent
execution begins with a fresh, never-terminated worker after terminating
any previous one. -/
theorem claim_C9 (s : JsExec.AdapterState) (hwf : JsExec.WF s) :
    JsExec.timeoutMs = 30000 ∧
    ((JsExec.finishRun (JsExec.beginRun s).1 (JsExec.beginRun s).2
        .timeoutFired).2 =
      [⟨.error, "Execution timeout: Code took longer than 30 seconds to execute"⟩]) ∧
    ("Execution timeout: Code took longer than 30 seconds to execute" =
      "Execution " ++ "timeout" ++ ": Code took longer than 30 seconds to execute") ∧
    ((JsExec.beginRun s).2 ∈
      (JsExec.finishRun (JsExec.beginRun s).1 (JsExec.beginRun s).2
        .timeoutFired).1.terminated) ∧
    ((JsExec.beginRun (JsExec.finishRun (JsExec.beginRun s).1
        (JsExec.beginRun s).2 .timeoutFired).1).2 ∉
      (JsExec.finishRun (JsExec.beginRun s).1 (JsExec.beginRun s).2
        .timeoutFired).1.terminated) ∧
    ((JsExec.beginRun (JsExec.finishRun (JsExec.beginRun s).1
        (JsExec.beginRun s).2 .timeoutFired).1).2 ≠ (JsExec.beginRun s).2) := by
  obtain ⟨h1, h2⟩ := hwf
  refine ⟨rfl, rfl, rfl, ?_, ?_, ?_⟩
  · simp [JsExec.beginRun, JsExec.finishRun]
  · simp only [JsExec.beginRun, JsExec.finishRun]
    intro hmem
    rw [List.mem_append] at hmem
    rcases hmem with hmem | hmem
    · cases hr : s.workerRef with
      | none =>
        rw [hr] at hmem
        have := h1 _ hmem
        omega
      | some w =>
        rw [hr] at hmem
        rw [List.mem_append] at hmem
        rcases hmem with hmem | hmem
        · have := h1 _ hmem
          omega
        · rw [List.mem_singleton] at hmem
          have := h2 w hr
          omega
    · rw [List.mem_singleton] at hmem
      omega
  · simp [JsExec.beginRun, JsExec.finishRun]

/-- Witness for C9 at the initial adapter state. -/
theorem claim_C9_witness :
    JsExec.WF JsExec.initialState ∧
    (JsExec.timeoutMs = 30000 ∧
    ((JsExec.finishRun (JsExec.beginRun JsExec.initialState).1
        (JsExec.beginRun JsExec.initialState).2 .timeoutFired).2 =
      [⟨.error, "Execution timeout: Code took longer than 30 seconds to execute"⟩]) ∧
    ("Execution timeout: Code took longer than 30 seconds to execute" =
      "Execution " ++ "timeout" ++ ": Code took longer than 30 seconds to execute") ∧
    ((JsExec.beginRun JsExec.initialState).2 ∈
      (JsExec.finishRun (JsExec.beginRun JsExec.initialState).1
        (JsExec.beginRun JsExec.initialState).2 .timeoutFired).1.terminated) ∧
    ((JsExec.beginRun (JsExec.finishRun (JsExec.beginRun JsExec.initialState).1
        (JsExec.beginRun JsExec.initialState).2 .timeoutFired).1).2 ∉
      (JsExec.finishRun (JsExec.beginRun JsExec.initialState).1
        (JsExec.beginRun JsExec.initialState).2 .timeoutFired).1.terminated) ∧
    ((JsExec.beginRun (JsExec.finishRun (JsExec.beginRun JsExec.initialState).1
        (JsExec.beginRun JsExec.initialState).2 .timeoutFired).1).2 ≠
      (JsExec.beginRun JsExec.initialState).2)) :=
  ⟨⟨by intro w hw; simp [JsExec.initialState] at hw,
    by intro w hw; simp [JsExec.initialState] at hw⟩,
   claim_C9 JsExec.initialState
    ⟨by intro w hw; simp [JsExec.initialState] at hw,
     by intro w hw; simp [JsExec.initialState] at hw⟩⟩

namespace JavaApi

/-- The `run` section of a piston service response: stdout and stderr of
the run phase ("" models an absent/empty field, which is falsy in JS). -/
structure RunSection where
  stdout : String
  stderr : String
deriving DecidableEq, Repr

/-- The parsed JSON body of a piston response.  `compileStderr = some s`
models a present `compile` object whose `stderr` field is `s`
(`result.compile && result.compile.stderr` is truthy iff the object is
present and `s` is non-empty); `run = none` models an absent run section. -/
structure PistonResponse where
  compileStderr : Option String
  run : Option RunSection
deriving DecidableEq, Repr

/-- What the `fetch` to the remote compile/execute service produced:
a network-level throw, a non-ok HTTP response, or a parsed body. -/
inductive FetchOutcome
  | fetchFailed (msg : String)
  | notOk
  | ok (resp : PistonResponse)
deriving Repr

/-- Outputs built from the `run` section (useJavaExecutor.ts lines
148-169): stdout if truthy, then stderr as an error if truthy, then the
"(no output)" placeholder when both are falsy; nothing if `run` absent. -/
def runSectionOutputs : Option RunSection → List Output
  | none => []
  | some r =>
    (if jsTruthy r.stdout then [⟨.output, r.stdout⟩] else [])
    ++ (if jsTruthy r.stderr then [⟨.error, r.stderr⟩] else [])
    ++ (if !jsTruthy r.stdout && !jsTruthy r.stderr
        then [⟨.output, "(no output)"⟩] else [])

/-- executeJavaAPI (lines 100-184): the whole body is wrapped in
try/catch, so the promise always resolves; a non-ok response throws into
the catch; a truthy compile stderr returns just that error; otherwise the
run section is mapped to outputs. -/
def executeJavaAPI : FetchOutcome → List Output
  | .fetchFailed m => [⟨.error, "Java compilation error: " ++ m⟩]
  | .notOk =>
      [⟨.error, "Java compilation error: Compilation service unavailable. Please try again."⟩]
  | .ok resp =>
    match resp.compileStderr with
    | some cs => if jsTruthy cs then [⟨.error, cs⟩] else runSectionOutputs resp.run
    | none => runSectionOutputs resp.run

end JavaApi

/-- C1 counterexample: the remote-API Java adapter resolves with an EMPTY
Output sequence when the service response carries neither a compile object
nor a run section (`result.run` absent skips the whole output-building
block), contradicting "an Output sequence containing at least one
Output". -/
theorem claim_C1_cex :
    JavaApi.executeJavaAPI (.ok ⟨none, none⟩) = [] ∧
    ¬ (1 ≤ (JavaApi.executeJavaAPI (.ok ⟨none, none⟩)).length) := by
  constructor
  · rfl
  · decide

/-- C1 (amended): `execute` never rejects or throws (both adapters are
modelled by total settle functions); the JavaScript adapter always
resolves with at least one Output, and each of its failure paths (user
code threw, worker error, timeout) carries at least one `error` Output;
the remote-API Java adapter surfaces each of its failure paths (network
throw, non-ok response, compile-phase stderr) as exactly one `error`
Output and returns at least one Output whenever the response carries a
run section — but resolves with an empty sequence when the response has
neither compile stderr nor a run section. -/
theorem claim_C1_amended :
    (∀ (run : JsWorker.CodeRun) (thrown : Option JsWorker.ThrownError),
      1 ≤ (JsExec.settle (.message (JsWorker.runMessageHandler run thrown).2)).length)
    ∧ (∀ (run : JsWorker.CodeRun) (e : JsWorker.ThrownError),
        ∃ o ∈ JsExec.settle (.message (JsWorker.runMessageHandler run (some e)).2),
          o.type = .error)
    ∧ (∀ m, ∃ o ∈ JsExec.settle (.workerFailure m), o.type = .error)
    ∧ (∃ o ∈ JsExec.settle .timeoutFired, o.type = .error)
    ∧ (∀ m, JavaApi.executeJavaAPI (.fetchFailed m) =
        [⟨.error, "Java compilation error: " ++ m⟩])
    ∧ (JavaApi.executeJavaAPI .notOk =
        [⟨.error, "Java compilation error: Compilation service unavailable. Please try again."⟩])
    ∧ (∀ resp cs, resp.compileStderr = some cs → jsTruthy cs →
        JavaApi.executeJavaAPI (.ok resp) = [⟨.error, cs⟩])
    ∧ (∀ (resp : JavaApi.PistonResponse) r, resp.run = some r →
        1 ≤ (JavaApi.executeJavaAPI (.ok resp)).length) := by
  refine ⟨?_, ?_, ?_, ?_, ?_, ?_, ?_, ?_⟩
  · intro run thrown
    cases thrown with
    | some e => simp [JsExec.settle, JsWorker.runMessageHandler]
    | none =>
      simp only [JsExec.settle, JsWorker.runMessageHandler]
      split
      · simp
      · rename_i h
        have := Nat.pos_of_ne_zero h
        omega
  · intro run e
    exact ⟨⟨.error, e.name ++ ": " ++ e.message⟩, by simp [JsExec.settle,
      JsWorker.runMessageHandler], rfl⟩
  · intro m
    exact ⟨⟨.error, "Worker error: " ++ m⟩, by simp [JsExec.settle], rfl⟩
  · exact ⟨⟨.error,
      "Execution timeout: Code took longer than 30 seconds to execute"⟩,
      by simp [JsExec.settle], rfl⟩
  · intro m; rfl
  · rfl
  · intro resp cs hcs htr
    simp [JavaApi.executeJavaAPI, hcs, htr]
  · intro resp r hr
    simp only [JavaApi.executeJavaAPI, hr]
    cases hcs : resp.compileStderr with
    | none =>
      simp only [JavaApi.runSectionOutputs]
      by_cases h1 : jsTruthy r.stdout <;> by_cases h2 : jsTruthy r.stderr <;>
        simp [h1, h2]
    | some cs =>
      by_cases htr : jsTruthy cs
      · simp [htr]
      · simp only [htr, if_false, JavaApi.runSectionOutputs]
        by_cases h1 : jsTruthy r.stdout <;> by_cases h2 : jsTruthy r.stderr <;>
          simp [h1, h2]

/-- Witness for C1 (amended) at concrete inputs. -/
theorem claim_C1_amended_witness :
    (1 ≤ (JsExec.settle (.message
        (JsWorker.runMessageHandler ⟨[], none⟩ none).2)).length)
    ∧ (∃ o ∈ JsExec.settle (.message
        (JsWorker.runMessageHandler ⟨[], none⟩ (some ⟨"TypeError", "boom"⟩)).2),
        o.type = .error)
    ∧ (JavaApi.executeJavaAPI (.ok ⟨some "bad.java", some ⟨"", ""⟩⟩) =
        [⟨.error, "bad.java"⟩])
    ∧ (1 ≤ (JavaApi.executeJavaAPI (.ok ⟨none, some ⟨"", ""⟩⟩)).length) :=
  ⟨claim_C1_amended.1 ⟨[], none⟩ none,
   claim_C1_amended.2.1 ⟨[], none⟩ ⟨"TypeError", "boom"⟩,
   claim_C1_amended.2.2.2.2.2.2.1 ⟨some "bad.java", some ⟨"", ""⟩⟩
     "bad.java" rfl (by decide),
   claim_C1_amended.2.2.2.2.2.2.2 ⟨none, some ⟨"", ""⟩⟩ ⟨"", ""⟩ rfl⟩

namespace CExec

/-- One consoleOut callback from the WASI worker during executeC: text plus
the isError flag (useCExecutor.ts lines 296-302). -/
structure ConsoleEvent where
  text : String
  isError : Bool
deriving DecidableEq, Repr

/-- Result of one awaited worker phase (compile or runWasi): it either
returned, or rejected with a message. -/
inductive PhaseOutcome
  | success
  | failure (msg : String)
deriving DecidableEq, Repr

/-- Observable behaviour of the worker during one executeC run: the console
events and outcome of the compile phase, then of the run phase (the run
fields are only consulted when compilation succeeds). -/
structure CompileRunBehavior where
  compileEvents : List ConsoleEvent
  compileOutcome : PhaseOutcome
  runEvents : List ConsoleEvent
  runOutcome : PhaseOutcome
deriving DecidableEq, Repr

/-- The consoleOut capture function (lines 296-302): error text is pushed
straight into `outputs`, other text into `consoleOutputs`. -/
def pushEvent (acc : List Output × List String) (e : ConsoleEvent) :
    List Output × List String :=
  if e.isError then (acc.1 ++ [⟨.error, e.text⟩], acc.2)
  else (acc.1, acc.2 ++ [e.text])

def pushEvents (acc : List Output × List String) (es : List ConsoleEvent) :
    List Output × List String :=
  es.foldl pushEvent acc

/-- executeC after a ready compiler (lines 294-362): write source, compile
(on rejection return what was captured, adding a generic error only when
both captures are empty), else run (success joins the captured console
text, or emits the completion placeholder; rejection adds an error only
when `outputs` is empty). Also returns whether the run phase was invoked. -/
def executeCReady (b : CompileRunBehavior) : List Output × Bool :=
  let acc1 := pushEvents ([], []) b.compileEvents
  match b.compileOutcome with
  | .failure msg =>
    (if acc1.1.length = 0 ∧ acc1.2.length = 0
     then [⟨.error, msg⟩] else acc1.1, false)
  | .success =>
    let acc2 := pushEvents acc1 b.runEvents
    match b.runOutcome with
    | .success =>
      (if acc2.2.length > 0
       then acc2.1 ++ [⟨.output, String.intercalate "\n" acc2.2⟩]
       else if acc2.1.length = 0
       then [⟨.output, "(program completed successfully)"⟩]
       else acc2.1, true)
    | .failure msg =>
      (if acc2.1.length = 0 then [⟨.error, msg⟩] else acc2.1, true)

end CExec

/-- C6 counterexample: in the C adapter a source that compiles cleanly and
prints nothing yields the placeholder "(program completed successfully)",
not the "(no output)" Output the claim requires for every compile-then-run
adapter. -/
theorem claim_C6_cex :
    (CExec.executeCReady ⟨[], .success, [], .success⟩).1 =
      [⟨.output, "(program completed successfully)"⟩] ∧
    ∀ o ∈ (CExec.executeCReady ⟨[], .success, [], .success⟩).1,
      o.content ≠ "(no output)" := by
  constructor
  · rfl
  · decide

/-- C6 (amended): for both compile-then-run adapters a compile-phase
diagnostic at error severity yields at least one `error` Output and the
run phase is never invoked (zero run-phase Outputs); a clean compile that
prints nothing yields an explicit placeholder Output rather than an empty
sequence — "(no output)" in the remote Java adapter but
"(program completed successfully)" in the C adapter. -/
theorem claim_C6_amended :
    (∀ (b : CExec.CompileRunBehavior) msg, b.compileOutcome = .failure msg →
      (CExec.executeCReady b).2 = false)
    ∧ (∀ (b : CExec.CompileRunBehavior) msg,
        b.compileOutcome = .failure msg →
        (∃ e ∈ b.compileEvents, e.isError = true) →
        ∃ o ∈ (CExec.executeCReady b).1, o.type = .error)
    ∧ (∀ (b : CExec.CompileRunBehavior), b.compileEvents = [] →
        b.compileOutcome = .success → b.runEvents = [] →
        b.runOutcome = .success →
        (CExec.executeCReady b).1 =
          [⟨.output, "(program completed successfully)"⟩])
    ∧ (∀ (resp : JavaApi.PistonResponse) cs run,
        resp.compileStderr = some cs → jsTruthy cs → resp.run = run →
        JavaApi.executeJavaAPI (.ok resp) = [⟨.error, cs⟩])
    ∧ (JavaApi.runSectionOutputs (some ⟨"", ""⟩) =
        [⟨.output, "(no output)"⟩]) := by
  refine ⟨?_, ?_, ?_, ?_, ?_⟩
  · intro b msg h
    simp only [CExec.executeCReady, h]
  · intro b msg hfail ⟨e, hmem, herr⟩
    simp only [CExec.executeCReady, hfail]
    have key : ∀ (es : List CExec.ConsoleEvent)
        (acc : List Output × List String), (∃ x ∈ es, x.isError = true) →
        ∃ o ∈ (CExec.pushEvents acc es).1, o.type = .error := by
      intro es
      induction es with
      | nil => intro acc h; simp at h
      | cons hd tl ih =>
        intro acc h
        rcases h with ⟨x, hx, hxe⟩
        rw [List.mem_cons] at hx
        by_cases hhd : hd.isError = true
        · have mono : ∀ (es' : List CExec.ConsoleEvent)
              (a : List Output × List String) o, o ∈ a.1 →
              o ∈ (CExec.pushEvents a es').1 := by
            intro es'
            induction es' with
            | nil => intro a o ho; exact ho
            | cons h2 t2 ih2 =>
              intro a o ho
              apply ih2
              simp only [CExec.pushEvent]
              split
              · simp [ho]
              · exact ho
          refine ⟨⟨.error, hd.text⟩, ?_, rfl⟩
          show _ ∈ (CExec.pushEvents (CExec.pushEvent acc hd) tl).1
          apply mono
          simp [CExec.pushEvent, hhd]
        · rcases hx with rfl | hx
          · exact absurd hxe hhd
          · exact ih (CExec.pushEvent acc hd) ⟨x, hx, hxe⟩
    have := key b.compileEvents ([], []) ⟨e, hmem, herr⟩
    rcases this with ⟨o, ho, hot⟩
    refine ⟨o, ?_, hot⟩
    split
    · rename_i hcond
      exfalso
      rcases hcond with ⟨h1, -⟩
      rw [List.length_eq_zero] at h1
      rw [h1] at ho
      simp at ho
    · exact ho
  · intro b h1 h2 h3 h4
    simp [CExec.executeCReady, h1, h2, h3, h4, CExec.pushEvents]
  · intro resp cs run hcs htr _
    simp [JavaApi.executeJavaAPI, hcs, htr]
  · decide

/-- Witness for C6 (amended) at concrete behaviours: a compile failure
with one error-severity diagnostic, a clean silent C run, and a clean
silent remote Java run. -/
theorem claim_C6_amended_witness :
    ((CExec.executeCReady
        ⟨[⟨"main.c:1: syntax error", true⟩], .failure "exit 1", [], .success⟩).2
      = false)
    ∧ (∃ o ∈ (CExec.executeCReady
        ⟨[⟨"main.c:1: syntax error", true⟩], .failure "exit 1", [], .success⟩).1,
        o.type = .error)
    ∧ ((CExec.executeCReady ⟨[], .success, [], .success⟩).1 =
        [⟨.output, "(program completed successfully)"⟩])
    ∧ (JavaApi.executeJavaAPI (.ok ⟨some "err", none⟩) = [⟨.error, "err"⟩]) :=
  ⟨claim_C6_amended.1
    ⟨[⟨"main.c:1: syntax error", true⟩], .failure "exit 1", [], .success⟩
    "exit 1" rfl,
   claim_C6_amended.2.1
    ⟨[⟨"main.c:1: syntax error", true⟩], .failure "exit 1", [], .success⟩
    "exit 1" rfl ⟨⟨"main.c:1: syntax error", true⟩, by decide, rfl⟩,
   claim_C6_amended.2.2.1 ⟨[], .success, [], .success⟩ rfl rfl rfl rfl,
   claim_C6_amended.2.2.2.1 ⟨some "err", none⟩ "err" none rfl (by decide) rfl⟩

namespace CInit

/-- The WccCompiler instance: `isSetup` is its only state bit relevant to
initialization (set at the end of a successful setUp, lines 68-125). -/
structure CompilerHandle where
  isSetup : Bool
deriving DecidableEq, Repr

/-- Mutable state of useCExecutor relevant to initialization: the
isInitialized React state, the isInitializing ref, and compilerRef. -/
structure HookState where
  isInitialized : Bool
  isInitializing : Bool
  compilerRef : Option CompilerHandle
deriving DecidableEq, Repr

/-- The adapter's cold state, before any call. -/
def coldState : HookState := ⟨false, false, none⟩

/-- Whether `new WccCompiler().setUp()` succeeds or rejects in a given
environment (network, zip contents, worker). -/
inductive SetUpOutcome
  | success
  | failure (msg : String)
deriving DecidableEq, Repr

/-- One sequential call to initCompiler (lines 222-256).  When neither
flag is set: set isInitializing, assign `compilerRef.current = new
WccCompiler()`, await setUp.  Success: the handle is set up,
setIsInitialized(true), finally clears isInitializing.  Failure: the catch
clears isInitializing and rethrows, the finally clears it again —
`compilerRef.current` KEEPS the not-set-up instance.  Returns the new
state, whether a bootstrap (new compiler + setUp) ran, and the rethrown
error if any. -/
def initCompiler (s : HookState) (o : SetUpOutcome) :
    HookState × Bool × Option String :=
  if s.isInitialized ∨ s.isInitializing then (s, false, none)
  else
    match o with
    | .success => (⟨true, false, some ⟨true⟩⟩, true, none)
    | .failure msg => (⟨s.isInitialized, false, some ⟨false⟩⟩, true, some msg)

/-- What the initialization prefix of executeC decides. -/
inductive InitPhaseResult
  | earlyReturn (outs : List Output)
  | proceed
deriving DecidableEq, Repr

/-- The initialization prefix of executeC (lines 273-293): call
initCompiler only when compilerRef is null; a rethrown initialization
error is caught by executeC's outer catch as a single "C compilation
error" Output; afterwards a still-null compilerRef yields the
"failed to initialize" Output, otherwise execution proceeds with the
compiler currently in compilerRef.  Returns (state, bootstrapRan, result). -/
def executeCInitPhase (s : HookState) (o : SetUpOutcome) :
    HookState × Bool × InitPhaseResult :=
  let step1 : HookState × Bool × Option String :=
    if s.compilerRef.isNone then initCompiler s o else (s, false, none)
  match step1 with
  | (s1, boot, some msg) =>
      (s1, boot, .earlyReturn [⟨.error, "C compilation error: " ++ msg⟩])
  | (s1, boot, none) =>
    if s1.compilerRef.isNone
    then (s1, boot, .earlyReturn [⟨.error, "C compiler failed to initialize"⟩])
    else (s1, boot, .proceed)

end CInit

/-- C5 counterexample: after a failed bootstrap from the cold state, the C
adapter's runtime handle is NOT left as it was before the attempt
(compilerRef now holds the not-set-up WccCompiler instead of null), and a
second execute call performs NO fresh bootstrap — it proceeds with the
stale handle. -/
theorem claim_C5_cex :
    ((CInit.executeCInitPhase CInit.coldState (.failure "fetch failed")).1.compilerRef
      ≠ CInit.coldState.compilerRef)
    ∧ ((CInit.executeCInitPhase
        (CInit.executeCInitPhase CInit.coldState (.failure "fetch failed")).1
        .success).2.1 = false)
    ∧ ((CInit.executeCInitPhase
        (CInit.executeCInitPhase CInit.coldState (.failure "fetch failed")).1
        .success).2.2 = .proceed) := by
  refine ⟨?_, ?_, ?_⟩ <;> decide

/-- C5 (amended): when the C adapter's bootstrap fails, the failure is
surfaced as a single `error` Output and the in-progress flag is cleared;
but the adapter does NOT return to a retryable cold state: compilerRef
keeps the partially-constructed compiler instance (isSetup = false), so a
subsequent execute call skips the bootstrap entirely and proceeds with
that stale handle instead of retrying. -/
theorem claim_C5_amended (msg : String) :
    ((CInit.executeCInitPhase CInit.coldState (.failure msg)).2.2 =
      .earlyReturn [⟨.error, "C compilation error: " ++ msg⟩])
    ∧ ((CInit.executeCInitPhase CInit.coldState (.failure msg)).1.isInitializing
        = false)
    ∧ ((CInit.executeCInitPhase CInit.coldState (.failure msg)).1.compilerRef
        = some ⟨false⟩)
    ∧ (∀ o', (CInit.executeCInitPhase
        (CInit.executeCInitPhase CInit.coldState (.failure msg)).1 o').2.1
        = false)
    ∧ (∀ o', (CInit.executeCInitPhase
        (CInit.executeCInitPhase CInit.coldState (.failure msg)).1 o').2.2
        = .proceed) := by
  refine ⟨rfl, rfl, rfl, ?_, ?_⟩ <;>
    · intro o'
      rfl

namespace Wcc

/-- How a PendingCall's promise was settled. -/
inductive Settled
  | resolvedWith (result : String)
  | rejectedWith (err : String)
deriving DecidableEq, Repr

/-- One inbound worker message as seen by WccCompiler's onmessage handler
(useCExecutor.ts lines 37-57): an optional messageId (`!= null` check), an
optional error field (`!= null` check), the result payload, and the
action/text/isError fields used by the consoleOut fallback. -/
structure InboundMsg where
  messageId : Option Nat
  error : Option String
  result : String
  action : Option String
  text : String
  isError : Bool
deriving Repr

/-- The channel's observable state: ids with a live PendingCall in
actionHandlerMap (insertion order), the settlements performed so far, and
the consoleOut events dispatched by the fallback branch. -/
structure ChannelState where
  pending : List Nat
  settled : List (Nat × Settled)
  consoleEvents : List (String × Bool)
deriving DecidableEq, Repr

/-- `data.error != null ? handler.reject(data.error) : handler.resolve(data.result)`. -/
def settleOf (m : InboundMsg) : Settled :=
  match m.error with
  | some e => .rejectedWith e
  | none => .resolvedWith m.result

/-- The else branch of the handler: `switch (data.action)` dispatching only
"consoleOut"; it never touches the pending map or settles anything. -/
def fallbackAction (s : ChannelState) (m : InboundMsg) : ChannelState :=
  match m.action with
  | some a =>
    if a = "consoleOut"
    then { s with consoleEvents := s.consoleEvents ++ [(m.text, m.isError)] }
    else s
  | none => s

/-- The onmessage handler: a message whose id is in the map deletes that
entry and settles it (reject if error present, else resolve with result);
anything else falls through to the action switch. -/
def onMessage (s : ChannelState) (m : InboundMsg) : ChannelState :=
  match m.messageId with
  | some id =>
    if id ∈ s.pending then
      { pending := s.pending.erase id
        settled := s.settled ++ [(id, settleOf m)]
        consoleEvents := s.consoleEvents }
    else fallbackAction s m
  | none => fallbackAction s m

/-- State after sending k calls: postMessage assigns ids by pre-increment
of a counter starting at 0 (line 198), so the outstanding ids are 1..k. -/
def sendCalls (k : Nat) : ChannelState := ⟨List.range' 1 k, [], []⟩

/-- A successful response for call `id` carrying result `f id`. -/
def respond (f : Nat → String) (id : Nat) : InboundMsg :=
  ⟨some id, none, f id, none, "", false⟩

def deliver (s : ChannelState) (ms : List InboundMsg) : ChannelState :=
  ms.foldl onMessage s

theorem fallback_preserves (s : ChannelState) (m : InboundMsg) :
    (fallbackAction s m).pending = s.pending ∧
    (fallbackAction s m).settled = s.settled := by
  unfold fallbackAction
  cases m.action with
  | none => exact ⟨rfl, rfl⟩
  | some a =>
    by_cases h : a = "consoleOut" <;> simp [h]

theorem deliver_resolves (f : Nat → String) :
    ∀ (order : List Nat) (s : ChannelState), order.Nodup →
    (∀ j ∈ order, j ∈ s.pending) →
    (deliver s (order.map (respond f))).settled
      = s.settled ++ order.map (fun j => (j, Settled.resolvedWith (f j)))
    ∧ (deliver s (order.map (respond f))).pending
      = order.foldl (fun l j => l.erase j) s.pending := by
  intro order
  induction order with
  | nil => intro s _ _; simp [deliver]
  | cons j rest ih =>
    intro s hnd hsub
    have hj : j ∈ s.pending := hsub j (List.mem_cons_self j rest)
    have hstep : onMessage s (respond f j) =
        ⟨s.pending.erase j, s.settled ++ [(j, Settled.resolvedWith (f j))],
          s.consoleEvents⟩ := by
      simp [onMessage, respond, hj, settleOf]
    have hnd' : rest.Nodup := (List.nodup_cons.mp hnd).2
    have hjrest : j ∉ rest := (List.nodup_cons.mp hnd).1
    have hsub' : ∀ x ∈ rest, x ∈ (s.pending.erase j) := by
      intro x hx
      have hne : x ≠ j := fun hxy => hjrest (hxy ▸ hx)
      exact List.mem_erase_of_ne hne |>.mpr (hsub x (List.mem_cons_of_mem _ hx))
    have hd : deliver s ((j :: rest).map (respond f)) =
        deliver (onMessage s (respond f j)) (rest.map (respond f)) := rfl
    rw [hd, hstep]
    obtain ⟨h1, h2⟩ := ih ⟨s.pending.erase j,
      s.settled ++ [(j, Settled.resolvedWith (f j))], s.consoleEvents⟩
      hnd' hsub'
    refine ⟨?_, ?_⟩
    · rw [h1]
      simp
    · rw [h2]
      rfl

theorem erase_all_of_perm :
    ∀ (order l : List Nat), l.Perm order →
    order.foldl (fun acc j => acc.erase j) l = [] := by
  intro order
  induction order with
  | nil => intro l h; simp [h.eq_nil]
  | cons j rest ih =>
    intro l h
    have : l.erase j |>.Perm rest := by
      have := h.erase j
      rwa [List.erase_cons_head] at this
    simpa using ih (l.erase j) this

end Wcc

/-- C3: an inbound message whose messageId is in the pending map settles
exactly that PendingCall — resolving with the message's result when the
error field is absent, rejecting with the error when present — and removes
it from the map; a message whose id is not in the map settles nothing; and
for calls sent with ids 1..k, delivering the k responses in any order
resolves each call with its own result. -/
theorem claim_C3 :
    (∀ (s : Wcc.ChannelState) (m : Wcc.InboundMsg) id,
      m.messageId = some id → id ∈ s.pending →
      Wcc.onMessage s m =
        ⟨s.pending.erase id, s.settled ++ [(id, Wcc.settleOf m)],
          s.consoleEvents⟩)
    ∧ (∀ m : Wcc.InboundMsg, m.error = none →
        Wcc.settleOf m = .resolvedWith m.result)
    ∧ (∀ (m : Wcc.InboundMsg) e, m.error = some e →
        Wcc.settleOf m = .rejectedWith e)
    ∧ (∀ (s : Wcc.ChannelState) (m : Wcc.InboundMsg),
        (∀ id, m.messageId = some id → id ∉ s.pending) →
        (Wcc.onMessage s m).pending = s.pending ∧
        (Wcc.onMessage s m).settled = s.settled)
    ∧ (∀ k (order : List Nat) (f : Nat → String),
        order.Perm (List.range' 1 k) →
        (Wcc.deliver (Wcc.sendCalls k) (order.map (Wcc.respond f))).pending = []
        ∧ ∀ i ∈ List.range' 1 k,
            (i, Wcc.Settled.resolvedWith (f i)) ∈
              (Wcc.deliver (Wcc.sendCalls k)
                (order.map (Wcc.respond f))).settled) := by
  refine ⟨?_, ?_, ?_, ?_, ?_⟩
  · intro s m id hid hmem
    simp [Wcc.onMessage, hid, hmem]
  · intro m h
    simp [Wcc.settleOf, h]
  · intro m e h
    simp [Wcc.settleOf, h]
  · intro s m h
    unfold Wcc.onMessage
    cases hm : m.messageId with
    | none => exact Wcc.fallback_preserves s m
    | some id =>
      have := h id hm
      simp only [this, if_neg (by exact this)]
      simpa using Wcc.fallback_preserves s m
  · intro k order f hperm
    have hnd : order.Nodup := hperm.symm.nodup (List.nodup_range' ..)
    have hsub : ∀ j ∈ order, j ∈ (Wcc.sendCalls k).pending := by
      intro j hj
      exact hperm.mem_iff.mp hj
    obtain ⟨h1, h2⟩ := Wcc.deliver_resolves f order (Wcc.sendCalls k) hnd hsub
    refine ⟨?_, ?_⟩
    · rw [h2]
      exact Wcc.erase_all_of_perm order _ hperm.symm
    · intro i hi
      rw [h1]
      have : i ∈ order := hperm.mem_iff.mpr hi
      simp only [Wcc.sendCalls, List.nil_append]
      exact List.mem_map.mpr ⟨i, this, rfl⟩

/-- Witness for C3: two calls (ids 1, 2), responses delivered in reverse
order; also one hit settlement and one unknown-id no-op at concrete
states. -/
theorem claim_C3_witness :
    (Wcc.onMessage ⟨[1, 2], [], []⟩ ⟨some 2, none, "r2", none, "", false⟩ =
      ⟨[1, 2].erase 2, [] ++ [(2, Wcc.settleOf ⟨some 2, none, "r2", none, "", false⟩)], []⟩)
    ∧ ((Wcc.onMessage ⟨[1, 2], [], []⟩ ⟨some 7, none, "r7", none, "", false⟩).pending
        = [1, 2]
      ∧ (Wcc.onMessage ⟨[1, 2], [], []⟩ ⟨some 7, none, "r7", none, "", false⟩).settled
        = [])
    ∧ ((Wcc.deliver (Wcc.sendCalls 2)
          ([2, 1].map (Wcc.respond (fun i => toString i)))).pending = []
      ∧ ∀ i ∈ List.range' 1 2,
          (i, Wcc.Settled.resolvedWith (toString i)) ∈
            (Wcc.deliver (Wcc.sendCalls 2)
              ([2, 1].map (Wcc.respond (fun i => toString i)))).settled) :=
  ⟨claim_C3.1 ⟨[1, 2], [], []⟩ ⟨some 2, none, "r2", none, "", false⟩ 2 rfl
    (by decide),
   claim_C3.2.2.2.1 ⟨[1, 2], [], []⟩ ⟨some 7, none, "r7", none, "", false⟩
    (by intro id hid hmem; cases hid; revert hmem; decide),
   claim_C3.2.2.2.2 2 [2, 1] (fun i => toString i) (by decide)⟩

namespace Hybrid

/-- The readiness state of useJavaExecutor: the isNativeReady React state,
the isInitialized ref (set together on load success, lines 92-93), and the
isLoadingCheerpJ ref guarding the background load. -/
structure HState where
  isNativeReady : Bool
  isInitialized : Bool
  isLoadingRuntime : Bool
deriving DecidableEq, Repr

/-- The adapter's state on first render. -/
def startState : HState := ⟨false, false, false⟩

/-- What one native execution would do: return outputs, or throw (the
catch in executeJavaNative turns the throw into a single error Output,
lines 344-351). -/
inductive NativeOutcome
  | ok (outs : List Output)
  | throws (msg : String)
deriving Repr

def nativeOutputs : NativeOutcome → List Output
  | .ok outs => outs
  | .throws msg => [⟨.error, "Java execution error: " ++ msg⟩]

/-- Which path executeJava takes. -/
inductive Path
  | native
  | remote
deriving DecidableEq, Repr

/-- Session events: an execute call (carrying the outputs the remote path
would produce and the behaviour of the native path), or completion of the
background TeaVM load triggered earlier (success sets both readiness
flags, lines 92-93; failure clears only the loading flag, line 96). -/
inductive Event
  | call (remoteOuts : List Output) (native : NativeOutcome)
  | loadSuccess
  | loadFailure
deriving Repr

/-- One step of the session (executeJava lines 356-389 for calls).  A call
first fire-and-forgets loadTeaVM when neither ready nor loading, then
takes the native path only when BOTH isNativeReady and isInitialized are
true, the remote path otherwise.  Readiness flags are never cleared by any
event. -/
def step (s : HState) : Event → HState × Option (Path × List Output)
  | .call remoteOuts native =>
    let s1 := if !s.isNativeReady && !s.isLoadingRuntime
      then { s with isLoadingRuntime := true } else s
    if s.isNativeReady && s.isInitialized
    then (s1, some (.native, nativeOutputs native))
    else (s1, some (.remote, remoteOuts))
  | .loadSuccess => ({ s with isNativeReady := true, isInitialized := true }, none)
  | .loadFailure => ({ s with isLoadingRuntime := false }, none)

/-- The sequence of (path, outputs) of the calls in an event trace. -/
def callResults (s : HState) : List Event → List (Path × List Output)
  | [] => []
  | e :: rest =>
    match step s e with
    | (s', some pr) => pr :: callResults s' rest
    | (s', none) => callResults s' rest

/-- Both readiness flags set. -/
def bothReady (s : HState) : Prop :=
  s.isNativeReady = true ∧ s.isInitialized = true

theorem bothReady_step (s : HState) (e : Event) (h : bothReady s) :
    bothReady (step s e).1 := by
  obtain ⟨h1, h2⟩ := h
  cases e with
  | call ro na => simp [step, h1, h2, bothReady]
  | loadSuccess => simp [step, bothReady]
  | loadFailure => simp [step, bothReady, h1, h2]

theorem native_of_bothReady (s : HState) (evs : List Event)
    (h : bothReady s) : ∀ p ∈ callResults s evs, p.1 = Path.native := by
  induction evs generalizing s with
  | nil => intro p hp; simp [callResults] at hp
  | cons e rest ih =>
    intro p hp
    have h' : bothReady (step s e).1 := bothReady_step s e h
    cases e with
    | call ro na =>
      obtain ⟨h1, h2⟩ := h
      simp only [callResults, step, h1, h2] at hp
      simp only [Bool.and_self, if_pos] at hp
      rw [List.mem_cons] at hp
      rcases hp with rfl | hp
      · rfl
      · exact ih _ (by simpa [step, h1, h2] using h') p hp
    | loadSuccess =>
      simp only [callResults, step] at hp
      exact ih _ (by simp [step, bothReady]) p hp
    | loadFailure =>
      obtain ⟨h1, h2⟩ := h
      simp only [callResults, step] at hp
      exact ih _ (by simp [step, bothReady, h1, h2]) p hp

theorem gate_iff (s : HState) (ro : List Output) (na : NativeOutcome) :
    (∃ outs, (step s (.call ro na)).2 = some (Path.native, outs)) ↔
      bothReady s := by
  constructor
  · rintro ⟨outs, houts⟩
    by_cases h : s.isNativeReady && s.isInitialized
    · exact ⟨(Bool.and_eq_true _ _ |>.mp h).1, (Bool.and_eq_true _ _ |>.mp h).2⟩
    · simp only [step, if_neg h] at houts
      simp at houts
  · rintro ⟨h1, h2⟩
    exact ⟨nativeOutputs na, by simp [step, h1, h2]⟩

end Hybrid

/-- C4: the hybrid Java adapter switches to the native path exactly when
both readiness flags (the isNativeReady state and the isInitialized ref)
are true, and the switch is monotonic: in every event trace, once a call
has taken the native path every later call also takes the native path —
even when a native execution throws, since that failure is returned as an
ordinary single `error` Output and no event ever clears either readiness
flag. -/
theorem claim_C4 :
    (∀ (s : Hybrid.HState) ro na,
      (∃ outs, (Hybrid.step s (.call ro na)).2 = some (Hybrid.Path.native, outs))
        ↔ Hybrid.bothReady s)
    ∧ (∀ (s : Hybrid.HState) (evs : List Hybrid.Event) i j pi pj,
        i < j → (Hybrid.callResults s evs).get? i = some pi →
        (Hybrid.callResults s evs).get? j = some pj →
        pi.1 = Hybrid.Path.native → pj.1 = Hybrid.Path.native)
    ∧ (∀ (s : Hybrid.HState) ro msg, Hybrid.bothReady s →
        (Hybrid.step s (.call ro (.throws msg))).2 =
          some (Hybrid.Path.native,
            [⟨.error, "Java execution error: " ++ msg⟩]))
    ∧ (∀ (s : Hybrid.HState) ro na,
        ((Hybrid.step s (.call ro na)).1.isNativeReady = s.isNativeReady
        ∧ (Hybrid.step s (.call ro na)).1.isInitialized = s.isInitialized)) := by
  refine ⟨Hybrid.gate_iff, ?_, ?_, ?_⟩
  · intro s evs
    induction evs generalizing s with
    | nil =>
      intro i j pi pj _ hpi _ _
      simp [Hybrid.callResults] at hpi
    | cons e rest ih =>
      intro i j pi pj hij hpi hpj hnat
      cases e with
      | call ro na =>
        by_cases hg : s.isNativeReady && s.isInitialized
        · have hbr : Hybrid.bothReady s :=
            ⟨(Bool.and_eq_true _ _ |>.mp hg).1, (Bool.and_eq_true _ _ |>.mp hg).2⟩
          have hall := Hybrid.native_of_bothReady s (Hybrid.Event.call ro na :: rest) hbr
          have hmem : pj ∈ Hybrid.callResults s (Hybrid.Event.call ro na :: rest) :=
            List.get?_mem hpj
          exact hall pj hmem
        · have hres : Hybrid.callResults s (Hybrid.Event.call ro na :: rest) =
              (Hybrid.Path.remote, ro) ::
                Hybrid.callResults (Hybrid.step s (.call ro na)).1 rest := by
            simp only [Hybrid.callResults, Hybrid.step, if_neg hg]
          rw [hres] at hpi hpj
          cases i with
          | zero =>
            simp at hpi
            rw [← hpi] at hnat
            simp at hnat
          | succ i' =>
            cases j with
            | zero => omega
            | succ j' =>
              simp only [List.get?_cons_succ] at hpi hpj
              exact ih _ i' j' pi pj (by omega) hpi hpj hnat
      | loadSuccess =>
        simp only [Hybrid.callResults, Hybrid.step] at hpi hpj
        exact ih _ i j pi pj hij hpi hpj hnat
      | loadFailure =>
        simp only [Hybrid.callResults, Hybrid.step] at hpi hpj
        exact ih _ i j pi pj hij hpi hpj hnat
  · intro s ro msg ⟨h1, h2⟩
    simp [Hybrid.step, h1, h2, Hybrid.nativeOutputs]
  · intro s ro na
    constructor <;>
      · simp only [Hybrid.step]
        split <;> split <;> rfl

/-- Witness for C4: the trace call(remote) → loadSuccess → native call
that throws → another call; the later calls are native and the throwing
native call yields the single error Output. -/
theorem claim_C4_witness :
    ((∃ outs, (Hybrid.step ⟨true, true, true⟩
        (.call [] (.ok []))).2 = some (Hybrid.Path.native, outs)) ↔
      Hybrid.bothReady ⟨true, true, true⟩)
    ∧ ((Hybrid.callResults Hybrid.startState
        [.call [⟨.output, "api"⟩] (.ok []), .loadSuccess,
         .call [] (.throws "boom"), .call [] (.ok [⟨.output, "hi"⟩])]).get? 1 =
          some (Hybrid.Path.native, [⟨.error, "Java execution error: boom"⟩]) →
        ∀ pj, (Hybrid.callResults Hybrid.startState
          [.call [⟨.output, "api"⟩] (.ok []), .loadSuccess,
           .call [] (.throws "boom"), .call [] (.ok [⟨.output, "hi"⟩])]).get? 2 =
          some pj → pj.1 = Hybrid.Path.native)
    ∧ ((Hybrid.step ⟨true, true, true⟩ (.call [] (.throws "boom"))).2 =
        some (Hybrid.Path.native, [⟨.error, "Java execution error: boom"⟩])) := by
  refine ⟨claim_C4.1 ⟨true, true, true⟩ [] (.ok []), ?_, ?_⟩
  · intro h1 pj hpj
    exact claim_C4.2.1 Hybrid.startState
      [.call [⟨.output, "api"⟩] (.ok []), .loadSuccess,
       .call [] (.throws "boom"), .call [] (.ok [⟨.output, "hi"⟩])]
      1 2 (Hybrid.Path.native, [⟨.error, "Java execution error: boom"⟩]) pj
      (by omega) h1 hpj rfl
  · exact claim_C4.2.2.1 ⟨true, true, true⟩ [] "boom" ⟨rfl, rfl⟩

namespace PyPkg

/-- The fixed allow-list of installable Pyodide packages
(usePythonExecutor.ts lines 29-36). -/
def SUPPORTED_PACKAGES : List String := [
  "numpy", "scipy", "pandas", "matplotlib", "scikit-learn", "scikit-image",
  "networkx", "sympy", "pillow", "regex", "pyyaml", "requests", "beautifulsoup4",
  "micropip", "packaging", "cryptography", "pytz", "sqlite3", "lxml", "html5lib",
  "pytest", "setuptools", "wheel", "statsmodels", "seaborn", "xarray", "zarr",
  "plotly", "bokeh", "opencv-python", "sqlalchemy", "wordcloud", "pygments",
  "jedi", "pyodide-http", "bitarray", "msgpack", "openpyxl", "xlrd"]

/-- One onProgress callback from loadPackages: the message and whether it
was reported with type "error" (vs "info"). -/
structure ProgressEvent where
  message : String
  isError : Bool
deriving DecidableEq, Repr

/-- The loop body of loadPackages (lines 81-97) threading
(loadedPackages, emitted events).  `installOk` models whether
`pyodide.loadPackage pkg` succeeds, `failMsg` the failure reason. -/
def processPkg (installOk : String → Bool) (failMsg : String → String)
    (acc : List String × List ProgressEvent) (pkg : String) :
    List String × List ProgressEvent :=
  if pkg ∈ SUPPORTED_PACKAGES then
    if installOk pkg then
      (acc.1 ++ [pkg], acc.2 ++ [⟨"Installing " ++ pkg ++ "...", false⟩,
                                 ⟨"✓ " ++ pkg ++ " installed", false⟩])
    else
      (acc.1, acc.2 ++ [⟨"Installing " ++ pkg ++ "...", false⟩,
                        ⟨"✗ Failed to install " ++ pkg ++ ": " ++ failMsg pkg, true⟩])
  else
    (acc.1, acc.2 ++ [⟨"⚠ Package \"" ++ pkg ++ "\" is not supported by Pyodide", true⟩])

/-- loadPackages (lines 69-98): filter out already-loaded names up front,
then process the remainder in order, continuing past failures.  Returns
the new loadedPackages set and the emitted events. -/
def loadPackages (installOk : String → Bool) (failMsg : String → String)
    (loaded : List String) (packages : List String) :
    List String × List ProgressEvent :=
  let packagesToLoad := packages.filter (fun p => decide (p ∉ loaded))
  packagesToLoad.foldl (processPkg installOk failMsg) (loaded, [])

/-- The events one module name contributes, per the source's case split. -/
def pkgEvents (installOk : String → Bool) (failMsg : String → String)
    (loaded : List String) (pkg : String) : List ProgressEvent :=
  if pkg ∈ loaded then []
  else if pkg ∈ SUPPORTED_PACKAGES then
    if installOk pkg then
      [⟨"Installing " ++ pkg ++ "...", false⟩, ⟨"✓ " ++ pkg ++ " installed", false⟩]
    else
      [⟨"Installing " ++ pkg ++ "...", false⟩,
       ⟨"✗ Failed to install " ++ pkg ++ ": " ++ failMsg pkg, true⟩]
  else [⟨"⚠ Package \"" ++ pkg ++ "\" is not supported by Pyodide", true⟩]

/-- The loadedPackages set after one module name is processed: it grows
only on a successful installation of a new supported name. -/
def pkgNewLoaded (installOk : String → Bool) (loaded : List String)
    (pkg : String) : List String :=
  if pkg ∉ loaded ∧ pkg ∈ SUPPORTED_PACKAGES ∧ installOk pkg
  then loaded ++ [pkg] else loaded

theorem processPkg_split (installOk : String → Bool)
    (failMsg : String → String) (st : List String)
    (evs : List ProgressEvent) (p : String) :
    processPkg installOk failMsg (st, evs) p =
      ((processPkg installOk failMsg (st, []) p).1,
       evs ++ (processPkg installOk failMsg (st, []) p).2) := by
  unfold processPkg
  split_ifs <;> simp

theorem foldl_events_split (installOk : String → Bool)
    (failMsg : String → String) :
    ∀ (l : List String) (st : List String) (evs : List ProgressEvent),
    l.foldl (processPkg installOk failMsg) (st, evs) =
      ((l.foldl (processPkg installOk failMsg) (st, [])).1,
       evs ++ (l.foldl (processPkg installOk failMsg) (st, [])).2) := by
  intro l
  induction l with
  | nil => intro st evs; simp
  | cons p t ih =>
    intro st evs
    have h1 : (p :: t).foldl (processPkg installOk failMsg) (st, evs) =
        t.foldl (processPkg installOk failMsg)
          (processPkg installOk failMsg (st, evs) p) := rfl
    have h2 : (p :: t).foldl (processPkg installOk failMsg) (st, []) =
        t.foldl (processPkg installOk failMsg)
          (processPkg installOk failMsg (st, []) p) := rfl
    rw [h1, h2, processPkg_split]
    rcases hp : processPkg installOk failMsg (st, []) p with ⟨st', e⟩
    rw [ih st' (evs ++ e), ih st' e]
    simp

theorem loadPackages_cons (installOk : String → Bool)
    (failMsg : String → String) (loaded : List String) (p : String)
    (ps : List String) (hnd : (p :: ps).Nodup) :
    loadPackages installOk failMsg loaded (p :: ps) =
      ((loadPackages installOk failMsg
          (pkgNewLoaded installOk loaded p) ps).1,
       pkgEvents installOk failMsg loaded p ++
        (loadPackages installOk failMsg
          (pkgNewLoaded installOk loaded p) ps).2) := by
  have hpnps : p ∉ ps := (List.nodup_cons.mp hnd).1
  by_cases hpl : p ∈ loaded
  · have hfilter : (p :: ps).filter (fun x => decide (x ∉ loaded)) =
        ps.filter (fun x => decide (x ∉ loaded)) := by
      rw [List.filter_cons]
      simp [hpl]
    have hnew : pkgNewLoaded installOk loaded p = loaded := by
      unfold pkgNewLoaded
      rw [if_neg]
      rintro ⟨h, -⟩
      exact h hpl
    have hev : pkgEvents installOk failMsg loaded p = [] := by
      simp [pkgEvents, hpl]
    rw [hev, hnew]
    unfold loadPackages
    rw [hfilter]
    simp
  · have hfilter : (p :: ps).filter (fun x => decide (x ∉ loaded)) =
        p :: ps.filter (fun x => decide (x ∉ loaded)) := by
      rw [List.filter_cons]
      simp [hpl]
    have hproc : processPkg installOk failMsg (loaded, []) p =
        (pkgNewLoaded installOk loaded p,
         pkgEvents installOk failMsg loaded p) := by
      unfold processPkg pkgNewLoaded pkgEvents
      by_cases hsup : p ∈ SUPPORTED_PACKAGES
      · by_cases hok : installOk p
        · simp [hsup, hok, hpl]
        · simp [hsup, hok, hpl]
      · simp [hsup, hpl]
    have hfilter2 : ps.filter (fun x => decide (x ∉ loaded)) =
        ps.filter (fun x => decide (x ∉ pkgNewLoaded installOk loaded p)) := by
      apply List.filter_congr
      intro x hx
      have hxp : x ≠ p := fun h => hpnps (h ▸ hx)
      unfold pkgNewLoaded
      split_ifs with hcase
      · simp only [decide_eq_decide]
        constructor
        · intro hxl hmem
          rw [List.mem_append] at hmem
          rcases hmem with hmem | hmem
          · exact hxl hmem
          · rw [List.mem_singleton] at hmem
            exact hxp hmem
        · intro hxl hmem
          exact hxl (List.mem_append_left _ hmem)
      · rfl
    unfold loadPackages
    rw [hfilter]
    have hfold : (p :: ps.filter (fun x => decide (x ∉ loaded))).foldl
        (processPkg installOk failMsg) (loaded, []) =
        (ps.filter (fun x => decide (x ∉ loaded))).foldl
          (processPkg installOk failMsg)
          (processPkg installOk failMsg (loaded, []) p) := rfl
    rw [hfold, hproc, hfilter2,
      foldl_events_split installOk failMsg _ (pkgNewLoaded installOk loaded p)
        (pkgEvents installOk failMsg loaded p)]

end PyPkg

/-- C8: per extracted module name in the Python adapter — a name not on
the allow-list yields a single warning `error` event and neither an
installation attempt nor a change to the loaded set; a name already in the
loaded set yields no events at all (so a module installed by a previous
execution re-requested later emits nothing, installing at most once); a
fresh supported name yields exactly "Installing X..." followed by
"✓ X installed" (success, name added to the set) or "✗ Failed to install
X: reason" (failure, set unchanged); and each name's events are followed
by the normal processing of the remaining names regardless of failures. -/
theorem claim_C8 :
    (∀ (installOk : String → Bool) (failMsg : String → String) loaded p ps,
      (p :: ps).Nodup →
      PyPkg.loadPackages installOk failMsg loaded (p :: ps) =
        ((PyPkg.loadPackages installOk failMsg
            (PyPkg.pkgNewLoaded installOk loaded p) ps).1,
         PyPkg.pkgEvents installOk failMsg loaded p ++
          (PyPkg.loadPackages installOk failMsg
            (PyPkg.pkgNewLoaded installOk loaded p) ps).2))
    ∧ (∀ installOk failMsg loaded p, p ∉ loaded →
        p ∉ PyPkg.SUPPORTED_PACKAGES →
        PyPkg.pkgEvents installOk failMsg loaded p =
          [⟨"⚠ Package \"" ++ p ++ "\" is not supported by Pyodide", true⟩]
        ∧ PyPkg.pkgNewLoaded installOk loaded p = loaded)
    ∧ (∀ installOk failMsg loaded p, p ∈ loaded →
        PyPkg.pkgEvents installOk failMsg loaded p = []
        ∧ PyPkg.pkgNewLoaded installOk loaded p = loaded)
    ∧ (∀ installOk failMsg loaded p, p ∉ loaded →
        p ∈ PyPkg.SUPPORTED_PACKAGES → installOk p = true →
        PyPkg.pkgEvents installOk failMsg loaded p =
          [⟨"Installing " ++ p ++ "...", false⟩,
           ⟨"✓ " ++ p ++ " installed", false⟩]
        ∧ PyPkg.pkgNewLoaded installOk loaded p = loaded ++ [p])
    ∧ (∀ installOk failMsg loaded p, p ∉ loaded →
        p ∈ PyPkg.SUPPORTED_PACKAGES → installOk p = false →
        PyPkg.pkgEvents installOk failMsg loaded p =
          [⟨"Installing " ++ p ++ "...", false⟩,
           ⟨"✗ Failed to install " ++ p ++ ": " ++ failMsg p, true⟩]
        ∧ PyPkg.pkgNewLoaded installOk loaded p = loaded)
    ∧ (∀ installOk failMsg loaded p, p ∉ loaded →
        p ∈ PyPkg.SUPPORTED_PACKAGES → installOk p = true →
        PyPkg.loadPackages installOk failMsg
          ((PyPkg.loadPackages installOk failMsg loaded [p]).1) [p] =
          ((PyPkg.loadPackages installOk failMsg loaded [p]).1, [])) := by
  refine ⟨PyPkg.loadPackages_cons, ?_, ?_, ?_, ?_, ?_⟩
  · intro installOk failMsg loaded p hpl hsup
    constructor
    · simp [PyPkg.pkgEvents, hpl, hsup]
    · unfold PyPkg.pkgNewLoaded
      rw [if_neg]
      rintro ⟨-, h, -⟩
      exact hsup h
  · intro installOk failMsg loaded p hpl
    constructor
    · simp [PyPkg.pkgEvents, hpl]
    · unfold PyPkg.pkgNewLoaded
      rw [if_neg]
      rintro ⟨h, -⟩
      exact h hpl
  · intro installOk failMsg loaded p hpl hsup hok
    constructor
    · simp [PyPkg.pkgEvents, hpl, hsup, hok]
    · simp [PyPkg.pkgNewLoaded, hpl, hsup, hok]
  · intro installOk failMsg loaded p hpl hsup hok
    constructor
    · simp [PyPkg.pkgEvents, hpl, hsup, hok]
    · simp [PyPkg.pkgNewLoaded, hpl, hsup, hok]
  · intro installOk failMsg loaded p hpl hsup hok
    have h1 : PyPkg.loadPackages installOk failMsg loaded [p] =
        (loaded ++ [p],
         [⟨"Installing " ++ p ++ "...", false⟩,
          ⟨"✓ " ++ p ++ " installed", false⟩]) := by
      unfold PyPkg.loadPackages
      have hf : [p].filter (fun x => decide (x ∉ loaded)) = [p] := by
        simp [hpl]
      rw [hf]
      show PyPkg.processPkg installOk failMsg (loaded, []) p = _
      simp [PyPkg.processPkg, hsup, hok]
    rw [h1]
    unfold PyPkg.loadPackages
    rw [List.filter_cons]
    have hmem : p ∈ loaded ++ [p] := List.mem_append_right _ (by simp)
    simp [hmem]

/-- Witness for C8 at concrete inputs: an unsupported name, an
already-loaded name, a fresh success, a fresh failure, and a repeated
request across two executions. -/
theorem claim_C8_witness :
    (PyPkg.loadPackages (fun _ => true) (fun _ => "net") []
        ["numpy", "notreal"] =
      ((PyPkg.loadPackages (fun _ => true) (fun _ => "net")
          (PyPkg.pkgNewLoaded (fun _ => true) [] "numpy") ["notreal"]).1,
       PyPkg.pkgEvents (fun _ => true) (fun _ => "net") [] "numpy" ++
        (PyPkg.loadPackages (fun _ => true) (fun _ => "net")
          (PyPkg.pkgNewLoaded (fun _ => true) [] "numpy") ["notreal"]).2))
    ∧ (PyPkg.pkgEvents (fun _ => true) (fun _ => "net") [] "notreal" =
        [⟨"⚠ Package \"notreal\" is not supported by Pyodide", true⟩])
    ∧ (PyPkg.pkgEvents (fun _ => true) (fun _ => "net") ["numpy"] "numpy" = [])
    ∧ (PyPkg.pkgEvents (fun _ => false) (fun _ => "net") [] "scipy" =
        [⟨"Installing scipy...", false⟩,
         ⟨"✗ Failed to install scipy: net", true⟩])
    ∧ (PyPkg.loadPackages (fun _ => true) (fun _ => "net")
        ((PyPkg.loadPackages (fun _ => true) (fun _ => "net") [] ["numpy"]).1)
        ["numpy"] =
        ((PyPkg.loadPackages (fun _ => true) (fun _ => "net") [] ["numpy"]).1,
         [])) :=
  ⟨claim_C8.1 (fun _ => true) (fun _ => "net") [] "numpy" ["notreal"]
    (by decide),
   (claim_C8.2.1 (fun _ => true) (fun _ => "net") [] "notreal"
     (by decide) (by decide)).1,
   (claim_C8.2.2.1 (fun _ => true) (fun _ => "net") ["numpy"] "numpy"
     (by decide)).1,
   (claim_C8.2.2.2.2.1 (fun _ => false) (fun _ => "net") [] "scipy"
     (by decide) (by decide) rfl).1,
   claim_C8.2.2.2.2.2 (fun _ => true) (fun _ => "net") [] "numpy"
     (by decide) (by decide) rfl⟩

namespace PyCapture

/-- Where a Python-level stream object currently points: the interpreter's
original stream (sys.__stdout__ / sys.__stderr__) or a per-run StringIO. -/
inductive StreamTarget
  | original
  | buffer (id : Nat)
deriving DecidableEq, Repr

/-- The interpreter state the generated capture program manipulates:
sys.stdout / sys.stderr targets, the StringIO buffers, and the text that
reached the real streams. -/
structure PyWorld where
  sysStdout : StreamTarget
  sysStderr : StreamTarget
  buffers : List (Nat × String)
  realStdout : String
  realStderr : String
deriving DecidableEq, Repr

def writeBuf (bufs : List (Nat × String)) (id : Nat) (t : String) :
    List (Nat × String) :=
  bufs.map (fun p => if p.1 = id then (p.1, p.2 ++ t) else p)

def getBuf (bufs : List (Nat × String)) (id : Nat) : String :=
  match bufs.find? (fun p => p.1 == id) with
  | some p => p.2
  | none => ""

/-- A write to sys.stdout goes wherever it currently points. -/
def writeToStdout (w : PyWorld) (t : String) : PyWorld :=
  match w.sysStdout with
  | .original => { w with realStdout := w.realStdout ++ t }
  | .buffer id => { w with buffers := writeBuf w.buffers id t }

def writeToStderr (w : PyWorld) (t : String) : PyWorld :=
  match w.sysStderr with
  | .original => { w with realStderr := w.realStderr ++ t }
  | .buffer id => { w with buffers := writeBuf w.buffers id t }

/-- One observable action of the user code inside the try block: write to
stdout, write to stderr, or raise (an Exception caught by the template's
except clause, recorded as its formatted traceback). -/
inductive UserAct
  | writeOut (t : String)
  | writeErr (t : String)
  | raiseExc (traceback : String)
deriving DecidableEq, Repr

/-- Execution of the user code inside `try:` — a raise aborts the
remaining statements and is caught by `except Exception`, which records
the formatted traceback in _execution_error. -/
def runUser : PyWorld → List UserAct → PyWorld × Option String
  | w, [] => (w, none)
  | w, .writeOut t :: rest => runUser (writeToStdout w t) rest
  | w, .writeErr t :: rest => runUser (writeToStderr w t) rest
  | w, .raiseExc tb :: _ => (w, some tb)

/-- Stdout text the user code produces before any raise. -/
def outText : List UserAct → String
  | [] => ""
  | .writeOut t :: rest => t ++ outText rest
  | .writeErr _ :: rest => outText rest
  | .raiseExc _ :: _ => ""

/-- Stderr text the user code produces before any raise. -/
def errText : List UserAct → String
  | [] => ""
  | .writeOut _ :: rest => errText rest
  | .writeErr t :: rest => t ++ errText rest
  | .raiseExc _ :: _ => ""

/-- The traceback of the first raise, if any. -/
def firstRaise : List UserAct → Option String
  | [] => none
  | .writeOut _ :: rest => firstRaise rest
  | .writeErr _ :: rest => firstRaise rest
  | .raiseExc tb :: _ => some tb

def maxBufId (bufs : List (Nat × String)) : Nat :=
  (bufs.map Prod.fst).foldr max 0

/-- What the capture program hands back to TypeScript:
_captured_stdout, _captured_stderr, _execution_error. -/
structure CaptureResult where
  capturedStdout : String
  capturedStderr : String
  executionError : Option String
deriving DecidableEq, Repr

/-- The generated capture program (usePythonExecutor.ts lines 293-321):
create two fresh StringIO buffers, point sys.stdout / sys.stderr at them,
run the user code inside try/except Exception, read both buffers, then
restore sys.stdout / sys.stderr to the original streams — statements that
execute even when the user code raised, because the raise was caught. -/
def runCapture (w : PyWorld) (acts : List UserAct) :
    PyWorld × CaptureResult :=
  let oid := maxBufId w.buffers + 1
  let eid := maxBufId w.buffers + 2
  let w1 : PyWorld := { w with
    buffers := w.buffers ++ [(oid, ""), (eid, "")],
    sysStdout := .buffer oid,
    sysStderr := .buffer eid }
  let r := runUser w1 acts
  let w3 : PyWorld :=
    { r.1 with sysStdout := .original, sysStderr := .original }
  (w3, ⟨getBuf r.1.buffers oid, getBuf r.1.buffers eid, r.2⟩)

/-- The TypeScript output-assembly after the capture program ran (lines
326-370): stdout if truthy, the captured plots as images, then — an
execution error if truthy, ELSE stderr if truthy — and the "(no output)"
placeholder when nothing at all was produced. -/
def assembleRunOutputs (stdout stderr : String) (execError : Option String)
    (plots : List String) : List Output :=
  (if jsTruthy stdout then [⟨.output, stdout⟩] else [])
  ++ plots.map (fun b => Output.mk .image b)
  ++ (match execError with
      | some e => if jsTruthy e then [⟨.error, e⟩]
                  else if jsTruthy stderr then [⟨.error, stderr⟩] else []
      | none => if jsTruthy stderr then [⟨.error, stderr⟩] else [])
  ++ (if jsTruthy stdout || !plots.isEmpty || jsTruthyOpt execError
        || jsTruthy stderr
      then [] else [⟨.output, "(no output)"⟩])

theorem writeBuf_keys (bufs : List (Nat × String)) (id : Nat) (t : String) :
    (writeBuf bufs id t).map Prod.fst = bufs.map Prod.fst := by
  induction bufs with
  | nil => rfl
  | cons hd tl ih =>
    obtain ⟨a, b⟩ := hd
    simp only [writeBuf, List.map_cons] at *
    by_cases h : a = id <;> simp [h, ih]

theorem getBuf_writeBuf_same (bufs : List (Nat × String)) (id : Nat)
    (t : String) (h : id ∈ bufs.map Prod.fst) :
    getBuf (writeBuf bufs id t) id = getBuf bufs id ++ t := by
  induction bufs with
  | nil => simp at h
  | cons hd tl ih =>
    obtain ⟨a, b⟩ := hd
    by_cases ha : a = id
    · subst ha
      simp [writeBuf, getBuf]
    · have h' : id ∈ tl.map Prod.fst := by
        simp only [List.map_cons, List.mem_cons] at h
        rcases h with h | h
        · exact absurd h.symm ha
        · exact h
      have hgb : getBuf ((a, b) :: tl) id = getBuf tl id := by
        simp [getBuf, List.find?_cons, ha]
      have hgw : getBuf (writeBuf ((a, b) :: tl) id t) id =
          getBuf (writeBuf tl id t) id := by
        simp [writeBuf, getBuf, List.find?_cons, ha]
      rw [hgw, hgb, ih h']

theorem getBuf_writeBuf_ne (bufs : List (Nat × String)) (id id' : Nat)
    (t : String) (h : id ≠ id') :
    getBuf (writeBuf bufs id' t) id = getBuf bufs id := by
  induction bufs with
  | nil => rfl
  | cons hd tl ih =>
    obtain ⟨a, b⟩ := hd
    by_cases ha : a = id'
    · subst ha
      have hne : ¬ (a == id) = true := by
        simp
        omega
      simp [writeBuf, getBuf, List.find?_cons, hne, if_pos rfl] at *
      exact ih
    · by_cases hai : a = id
      · subst hai
        simp [writeBuf, getBuf, List.find?_cons, ha]
      · have hne : ¬ (a == id) = true := by simp [hai]
        simp [writeBuf, getBuf, List.find?_cons, ha, hne] at *
        exact ih

theorem mem_le_maxBufId (bufs : List (Nat × String)) :
    ∀ k ∈ bufs.map Prod.fst, k ≤ maxBufId bufs := by
  induction bufs with
  | nil => intro k hk; simp at hk
  | cons hd tl ih =>
    intro k hk
    simp only [List.map_cons, List.mem_cons] at hk
    unfold maxBufId
    simp only [List.map_cons, List.foldr_cons]
    rcases hk with rfl | hk
    · exact Nat.le_max_left _ _
    · exact le_trans (ih k hk) (Nat.le_max_right _ _)

theorem getBuf_append_of_missing (bufs rest : List (Nat × String)) (k : Nat)
    (h : k ∉ bufs.map Prod.fst) :
    getBuf (bufs ++ rest) k = getBuf rest k := by
  induction bufs with
  | nil => rfl
  | cons hd tl ih =>
    obtain ⟨a, b⟩ := hd
    have hak : a ≠ k := by
      intro heq
      exact h (by simp [heq])
    have h' : k ∉ tl.map Prod.fst := by
      intro hmem
      exact h (by simp [hmem])
    have : ¬ (a == k) = true := by simp [hak]
    simp [getBuf, List.find?_cons, this] at *
    exact ih h'

theorem runUser_spec (oid eid : Nat) (hne : oid ≠ eid) :
    ∀ (acts : List UserAct) (w : PyWorld),
    w.sysStdout = .buffer oid → w.sysStderr = .buffer eid →
    oid ∈ w.buffers.map Prod.fst → eid ∈ w.buffers.map Prod.fst →
    (runUser w acts).1.sysStdout = w.sysStdout ∧
    (runUser w acts).1.sysStderr = w.sysStderr ∧
    (runUser w acts).1.realStdout = w.realStdout ∧
    (runUser w acts).1.realStderr = w.realStderr ∧
    getBuf (runUser w acts).1.buffers oid =
      getBuf w.buffers oid ++ outText acts ∧
    getBuf (runUser w acts).1.buffers eid =
      getBuf w.buffers eid ++ errText acts ∧
    (runUser w acts).2 = firstRaise acts := by
  intro acts
  induction acts with
  | nil =>
    intro w _ _ _ _
    refine ⟨rfl, rfl, rfl, rfl, ?_, ?_, rfl⟩ <;>
      simp [runUser, outText, errText]
  | cons a rest ih =>
    intro w hso hse hmo hme
    cases a with
    | writeOut t =>
      have hw : writeToStdout w t = { w with buffers := writeBuf w.buffers oid t } := by
        simp [writeToStdout, hso]
      have hrec := ih (writeToStdout w t)
        (by rw [hw]; exact hso) (by rw [hw]; exact hse)
        (by rw [hw]; simpa [writeBuf_keys] using hmo)
        (by rw [hw]; simpa [writeBuf_keys] using hme)
      have hrun : runUser w (UserAct.writeOut t :: rest) =
          runUser (writeToStdout w t) rest := rfl
      obtain ⟨h1, h2, h3, h4, h5, h6, h7⟩ := hrec
      rw [hrun]
      rw [hw] at h1 h2 h3 h4 h5 h6 ⊢
      refine ⟨h1, h2, h3, h4, ?_, ?_, ?_⟩
      · rw [h5]
        simp only
        rw [getBuf_writeBuf_same w.buffers oid t hmo]
        simp [outText, String.append_assoc]
      · rw [h6]
        simp only
        rw [getBuf_writeBuf_ne w.buffers eid oid t (Ne.symm hne)]
        simp [errText]
      · rw [← hw]
        simpa [firstRaise] using h7
    | writeErr t =>
      have hw : writeToStderr w t = { w with buffers := writeBuf w.buffers eid t } := by
        simp [writeToStderr, hse]
      have hrec := ih (writeToStderr w t)
        (by rw [hw]; exact hso) (by rw [hw]; exact hse)
        (by rw [hw]; simpa [writeBuf_keys] using hmo)
        (by rw [hw]; simpa [writeBuf_keys] using hme)
      have hrun : runUser w (UserAct.writeErr t :: rest) =
          runUser (writeToStderr w t) rest := rfl
      obtain ⟨h1, h2, h3, h4, h5, h6, h7⟩ := hrec
      rw [hrun]
      rw [hw] at h1 h2 h3 h4 h5 h6 ⊢
      refine ⟨h1, h2, h3, h4, ?_, ?_, ?_⟩
      · rw [h5]
        simp only
        rw [getBuf_writeBuf_ne w.buffers oid eid t hne]
        simp [outText]
      · rw [h6]
        simp only
        rw [getBuf_writeBuf_same w.buffers eid t hme]
        simp [errText, String.append_assoc]
      · rw [← hw]
        simpa [firstRaise] using h7
    | raiseExc tb =>
      refine ⟨rfl, rfl, rfl, rfl, ?_, ?_, rfl⟩ <;>
        simp [runUser, outText, errText]

end PyCapture

/-- C7: the Python adapter's capture program redirects stdout and stderr
into fresh per-run buffers before the user code runs (so nothing reaches
the real streams) and restores both streams unconditionally afterwards,
even when the user code raises; the captured buffers and execution error
are exactly the user code's writes and first traceback; and when the user
code raised, the assembled run outputs contain exactly one `error` entry,
the formatted traceback — the raw captured stderr is not reported
alongside it. -/
theorem claim_C7 :
    (∀ (w : PyCapture.PyWorld) acts,
      (PyCapture.runCapture w acts).1.sysStdout = .original ∧
      (PyCapture.runCapture w acts).1.sysStderr = .original ∧
      (PyCapture.runCapture w acts).1.realStdout = w.realStdout ∧
      (PyCapture.runCapture w acts).1.realStderr = w.realStderr)
    ∧ (∀ (w : PyCapture.PyWorld) acts,
        (PyCapture.runCapture w acts).2.capturedStdout =
          PyCapture.outText acts ∧
        (PyCapture.runCapture w acts).2.capturedStderr =
          PyCapture.errText acts ∧
        (PyCapture.runCapture w acts).2.executionError =
          PyCapture.firstRaise acts)
    ∧ (∀ stdout stderr tb plots, jsTruthy tb = true →
        (PyCapture.assembleRunOutputs stdout stderr (some tb) plots).filter
          (fun o => o.type == .error) = [⟨.error, tb⟩])
    ∧ (∀ (w : PyCapture.PyWorld) acts tb plots,
        PyCapture.firstRaise acts = some tb → jsTruthy tb = true →
        (PyCapture.assembleRunOutputs
          (PyCapture.runCapture w acts).2.capturedStdout
          (PyCapture.runCapture w acts).2.capturedStderr
          (PyCapture.runCapture w acts).2.executionError plots).filter
          (fun o => o.type == .error) = [⟨.error, tb⟩]) := by
  have hbase : ∀ (w : PyCapture.PyWorld) acts,
      (PyCapture.runCapture w acts).1.sysStdout = .original ∧
      (PyCapture.runCapture w acts).1.sysStderr = .original ∧
      (PyCapture.runCapture w acts).1.realStdout = w.realStdout ∧
      (PyCapture.runCapture w acts).1.realStderr = w.realStderr ∧
      (PyCapture.runCapture w acts).2.capturedStdout =
        PyCapture.outText acts ∧
      (PyCapture.runCapture w acts).2.capturedStderr =
        PyCapture.errText acts ∧
      (PyCapture.runCapture w acts).2.executionError =
        PyCapture.firstRaise acts := by
    intro w acts
    have hne : PyCapture.maxBufId w.buffers + 1 ≠
        PyCapture.maxBufId w.buffers + 2 := by omega
    have hfresh1 : PyCapture.maxBufId w.buffers + 1 ∉
        w.buffers.map Prod.fst := by
      intro hmem
      have := PyCapture.mem_le_maxBufId w.buffers _ hmem
      omega
    have hfresh2 : PyCapture.maxBufId w.buffers + 2 ∉
        w.buffers.map Prod.fst := by
      intro hmem
      have := PyCapture.mem_le_maxBufId w.buffers _ hmem
      omega
    have hspec := PyCapture.runUser_spec
      (PyCapture.maxBufId w.buffers + 1) (PyCapture.maxBufId w.buffers + 2)
      hne acts
      { w with
        buffers := w.buffers ++ [(PyCapture.maxBufId w.buffers + 1, ""),
          (PyCapture.maxBufId w.buffers + 2, "")],
        sysStdout := .buffer (PyCapture.maxBufId w.buffers + 1),
        sysStderr := .buffer (PyCapture.maxBufId w.buffers + 2) }
      rfl rfl (by simp) (by simp)
    obtain ⟨h1, h2, h3, h4, h5, h6, h7⟩ := hspec
    have hinit1 : PyCapture.getBuf
        (w.buffers ++ [(PyCapture.maxBufId w.buffers + 1, ""),
          (PyCapture.maxBufId w.buffers + 2, "")])
        (PyCapture.maxBufId w.buffers + 1) = "" := by
      rw [PyCapture.getBuf_append_of_missing _ _ _ hfresh1]
      simp [PyCapture.getBuf, List.find?_cons]
    have hinit2 : PyCapture.getBuf
        (w.buffers ++ [(PyCapture.maxBufId w.buffers + 1, ""),
          (PyCapture.maxBufId w.buffers + 2, "")])
        (PyCapture.maxBufId w.buffers + 2) = "" := by
      rw [PyCapture.getBuf_append_of_missing _ _ _ hfresh2]
      have : ¬ (PyCapture.maxBufId w.buffers + 1 ==
          PyCapture.maxBufId w.buffers + 2) = true := by
        simp
      simp [PyCapture.getBuf, List.find?_cons, this]
    refine ⟨rfl, rfl, ?_, ?_, ?_, ?_, ?_⟩
    · show (PyCapture.runUser _ acts).1.realStdout = w.realStdout
      rw [h3]
    · show (PyCapture.runUser _ acts).1.realStderr = w.realStderr
      rw [h4]
    · show PyCapture.getBuf (PyCapture.runUser _ acts).1.buffers _ = _
      rw [h5]
      simp only at hinit1 ⊢
      rw [hinit1]
      simp
    · show PyCapture.getBuf (PyCapture.runUser _ acts).1.buffers _ = _
      rw [h6]
      simp only at hinit2 ⊢
      rw [hinit2]
      simp
    · exact h7
  have hfilter : ∀ stdout stderr tb plots, jsTruthy tb = true →
      (PyCapture.assembleRunOutputs stdout stderr (some tb) plots).filter
        (fun o => o.type == .error) = [⟨.error, tb⟩] := by
    intro stdout stderr tb plots htb
    have himg : (plots.map (fun b => Output.mk .image b)).filter
        (fun o => o.type == .error) = [] := by
      rw [List.filter_eq_nil_iff]
      intro x hx
      rw [List.mem_map] at hx
      obtain ⟨b, -, rfl⟩ := hx
      simp
    by_cases h1 : jsTruthy stdout <;>
      simp [PyCapture.assembleRunOutputs, List.filter_append, himg, htb,
        jsTruthyOpt, h1]
  refine ⟨fun w acts => ?_, fun w acts => ?_, hfilter, fun w acts tb plots hfr htb => ?_⟩
  · obtain ⟨h1, h2, h3, h4, -, -, -⟩ := hbase w acts
    exact ⟨h1, h2, h3, h4⟩
  · obtain ⟨-, -, -, -, h5, h6, h7⟩ := hbase w acts
    exact ⟨h5, h6, h7⟩
  · obtain ⟨-, -, -, -, -, -, h7⟩ := hbase w acts
    rw [h7, hfr]
    exact hfilter _ _ tb plots htb

/-- Witness for C7: a run that writes both streams then raises. -/
theorem claim_C7_witness :
    ((PyCapture.runCapture ⟨.original, .original, [], "", ""⟩
        [.writeOut "x", .writeErr "warn", .raiseExc "Traceback: boom"]).1.sysStdout
      = .original)
    ∧ ((PyCapture.runCapture ⟨.original, .original, [], "", ""⟩
        [.writeOut "x", .writeErr "warn", .raiseExc "Traceback: boom"]).2.capturedStderr
      = PyCapture.errText
          [.writeOut "x", .writeErr "warn", .raiseExc "Traceback: boom"])
    ∧ ((PyCapture.assembleRunOutputs
        (PyCapture.runCapture ⟨.original, .original, [], "", ""⟩
          [.writeOut "x", .writeErr "warn", .raiseExc "Traceback: boom"]).2.capturedStdout
        (PyCapture.runCapture ⟨.original, .original, [], "", ""⟩
          [.writeOut "x", .writeErr "warn", .raiseExc "Traceback: boom"]).2.capturedStderr
        (PyCapture.runCapture ⟨.original, .original, [], "", ""⟩
          [.writeOut "x", .writeErr "warn", .raiseExc "Traceback: boom"]).2.executionError
        []).filter (fun o => o.type == .error) =
      [⟨.error, "Traceback: boom"⟩]) :=
  ⟨(claim_C7.1 ⟨.original, .original, [], "", ""⟩
      [.writeOut "x", .writeErr "warn", .raiseExc "Traceback: boom"]).1,
   ((claim_C7.2.1 ⟨.original, .original, [], "", ""⟩
      [.writeOut "x", .writeErr "warn", .raiseExc "Traceback: boom"])).2.1,
   claim_C7.2.2.2 ⟨.original, .original, [], "", ""⟩
      [.writeOut "x", .writeErr "warn", .raiseExc "Traceback: boom"]
      "Traceback: boom" [] rfl (by decide)⟩

namespace PyBoot

/-- The program counter of one caller inside loadPyodide
(usePythonExecutor.ts lines 100-167).  JavaScript runs the synchronous
head of the function — the pyodideRef check, the isLoadingPyodide check,
and the `isLoadingPyodide.current = true` assignment — atomically up to
the first await, which this model reflects in the `entry` step. -/
inductive CallerPC
  | entry
  | bootstrapping (h : Nat)
  | polling
  | done (h : Nat)
deriving DecidableEq, Repr

/-- The shared mutable state: pyodideRef, the isLoadingPyodide flag, a
counter giving each bootstrap a fresh handle identity, the number of
bootstrap sequences started, and each caller's position. -/
structure SysState where
  pyodideRef : Option Nat
  isLoadingPyodide : Bool
  nextHandle : Nat
  boots : Nat
  callers : List CallerPC
deriving DecidableEq, Repr

/-- n callers about to invoke loadPyodide on the cold adapter. -/
def initState (n : Nat) : SysState :=
  ⟨none, false, 0, 0, List.replicate n .entry⟩

def setPC (s : SysState) (i : Nat) (pc : CallerPC) : SysState :=
  { s with callers := s.callers.set i pc }

/-- One scheduler step giving caller i the CPU.  entry: return the ref if
set; else if the flag is set fall into the polling promise; else set the
flag and begin the bootstrap (counted in boots).  bootstrapping: the
bootstrap completes — publish the handle, clear the flag, resolve.
polling: the setInterval body — resolve iff pyodideRef is set. -/
def step (s : SysState) (i : Nat) : SysState :=
  match s.callers[i]? with
  | none => s
  | some .entry =>
    match s.pyodideRef with
    | some h => setPC s i (.done h)
    | none =>
      if s.isLoadingPyodide then setPC s i .polling
      else
        { pyodideRef := none
          isLoadingPyodide := true
          nextHandle := s.nextHandle + 1
          boots := s.boots + 1
          callers := s.callers.set i (.bootstrapping s.nextHandle) }
  | some (.bootstrapping h) =>
    { pyodideRef := some h
      isLoadingPyodide := false
      nextHandle := s.nextHandle
      boots := s.boots
      callers := s.callers.set i (.done h) }
  | some .polling =>
    match s.pyodideRef with
    | some h => setPC s i (.done h)
    | none => s
  | some (.done _) => s

def run (s : SysState) (sched : List Nat) : SysState :=
  sched.foldl step s

/-- The inductive invariant of the initializer. -/
structure Inv (s : SysState) : Prop where
  boots_le : s.boots ≤ 1
  handle_eq : s.nextHandle = s.boots
  cold : s.boots = 0 → s.isLoadingPyodide = false ∧ s.pyodideRef = none ∧
    ∀ pc ∈ s.callers, pc = CallerPC.entry
  warm : 1 ≤ s.boots → s.isLoadingPyodide = true ∨ s.pyodideRef.isSome = true
  ref_zero : ∀ h, s.pyodideRef = some h → h = 0
  pcs_zero : ∀ pc ∈ s.callers,
    (∀ h, pc = CallerPC.bootstrapping h → h = 0) ∧
    (∀ h, pc = CallerPC.done h → h = 0)

theorem inv_step (s : SysState) (i : Nat) (hinv : Inv s) : Inv (step s i) := by
  obtain ⟨hb, hh, hc, hw, hr, hp⟩ := hinv
  cases hpc : s.callers[i]? with
  | none =>
    simp only [step, hpc]
    exact ⟨hb, hh, hc, hw, hr, hp⟩
  | some pc =>
    have hpcmem : pc ∈ s.callers := List.getElem?_mem hpc
    cases pc with
    | entry =>
      cases href : s.pyodideRef with
      | some h =>
        have h0 : h = 0 := hr h href
        simp only [step, hpc, href]
        refine ⟨hb, hh, ?_, hw, hr, ?_⟩
        · intro hb0
          exact absurd ((hc hb0).2.1) (by simp [href])
        · intro pc' hpc'
          rcases List.mem_or_eq_of_mem_set hpc' with hold | rfl
          · exact hp pc' hold
          · exact ⟨(by intro h' heq; cases heq),
              (by intro h' heq; cases heq; omega)⟩
      | none =>
        by_cases hfl : s.isLoadingPyodide
        · simp only [step, hpc, href, if_pos hfl]
          refine ⟨hb, hh, ?_, hw, hr, ?_⟩
          · intro hb0
            exact absurd (hc hb0).1 (by simp [hfl])
          · intro pc' hpc'
            rcases List.mem_or_eq_of_mem_set hpc' with hold | rfl
            · exact hp pc' hold
            · exact ⟨(by intro h' heq; cases heq), (by intro h' heq; cases heq)⟩
        · have hb0 : s.boots = 0 := by
            by_contra hb1
            rcases hw (by omega) with h1 | h1
            · exact hfl h1
            · rw [href] at h1
              simp at h1
          simp only [step, hpc, href, if_neg hfl]
          refine ⟨(by show s.boots + 1 ≤ 1; omega),
            (by show s.nextHandle + 1 = s.boots + 1; omega),
            (by intro h'; have h2 : s.boots + 1 = 0 := h'; omega),
            fun _ => Or.inl rfl,
            (by intro h' heq; cases heq), ?_⟩
          · intro pc' hpc'
            rcases List.mem_or_eq_of_mem_set hpc' with hold | rfl
            · exact hp pc' hold
            · refine ⟨?_, (by intro h' heq; cases heq)⟩
              intro h' heq
              cases heq
              omega
    | bootstrapping h =>
      have h0 : h = 0 := (hp _ hpcmem).1 h rfl
      have hb1 : 1 ≤ s.boots := by
        by_contra hb1
        have hb0 : s.boots = 0 := by omega
        exact absurd ((hc hb0).2.2 _ hpcmem) (by simp)
      simp only [step, hpc]
      refine ⟨hb, hh,
        (by intro h'; have h2 : s.boots = 0 := h'; omega),
        fun _ => Or.inr rfl,
        (by intro h' heq; cases heq; omega), ?_⟩
      · intro pc' hpc'
        rcases List.mem_or_eq_of_mem_set hpc' with hold | rfl
        · exact hp pc' hold
        · exact ⟨(by intro h' heq; cases heq),
            (by intro h' heq; cases heq; omega)⟩
    | polling =>
      cases href : s.pyodideRef with
      | some h =>
        have h0 : h = 0 := hr h href
        simp only [step, hpc, href]
        refine ⟨hb, hh, ?_, hw, hr, ?_⟩
        · intro hb0
          exact absurd ((hc hb0).2.2 _ hpcmem) (by simp)
        · intro pc' hpc'
          rcases List.mem_or_eq_of_mem_set hpc' with hold | rfl
          · exact hp pc' hold
          · exact ⟨(by intro h' heq; cases heq),
              (by intro h' heq; cases heq; omega)⟩
      | none =>
        simp only [step, hpc, href]
        exact ⟨hb, hh, hc, hw, hr, hp⟩
    | done h =>
      simp only [step, hpc]
      exact ⟨hb, hh, hc, hw, hr, hp⟩

theorem inv_init (n : Nat) : Inv (initState n) := by
  refine ⟨(by show (0:Nat) ≤ 1; omega), rfl, ?_,
    (by intro h; have h2 : (1:Nat) ≤ 0 := h; omega),
    (by intro h heq; cases heq), ?_⟩
  · intro _
    refine ⟨rfl, rfl, ?_⟩
    intro pc hpc
    exact List.eq_of_mem_replicate hpc
  · intro pc hpc
    have := List.eq_of_mem_replicate hpc
    subst this
    exact ⟨(by intro h heq; cases heq), (by intro h heq; cases heq)⟩

theorem inv_run (sched : List Nat) : ∀ (s : SysState), Inv s →
    Inv (run s sched) := by
  induction sched with
  | nil => intro s hs; exact hs
  | cons a t ih => intro s hs; exact ih (step s a) (inv_step s a hs)

theorem step_length (s : SysState) (i : Nat) :
    (step s i).callers.length = s.callers.length := by
  cases hpc : s.callers[i]? with
  | none => simp [step, hpc]
  | some pc =>
    cases pc with
    | entry =>
      cases href : s.pyodideRef with
      | some h => simp [step, hpc, href, setPC]
      | none =>
        by_cases hfl : s.isLoadingPyodide <;>
          simp [step, hpc, href, hfl, setPC]
    | bootstrapping h => simp [step, hpc, setPC]
    | polling =>
      cases href : s.pyodideRef with
      | some h => simp [step, hpc, href, setPC]
      | none => simp [step, hpc, href]
    | done h => simp [step, hpc]

theorem run_length (sched : List Nat) : ∀ (s : SysState),
    (run s sched).callers.length = s.callers.length := by
  induction sched with
  | nil => intro s; rfl
  | cons a t ih =>
    intro s
    have : run s (a :: t) = run (step s a) t := rfl
    rw [this, ih (step s a), step_length]

theorem step_preserves_done (s : SysState) (i j : Nat)
    (h : s.callers[j]? = some (.done 0)) :
    (step s i).callers[j]? = some (.done 0) := by
  by_cases hij : i = j
  · subst hij
    simp only [step, h]
  · cases hpc : s.callers[i]? with
    | none => simpa [step, hpc] using h
    | some pc =>
      cases pc with
      | entry =>
        cases href : s.pyodideRef with
        | some hh => simpa [step, hpc, href, setPC, List.getElem?_set_ne hij] using h
        | none =>
          by_cases hfl : s.isLoadingPyodide <;>
            simpa [step, hpc, href, hfl, setPC, List.getElem?_set_ne hij] using h
      | bootstrapping hh =>
        simpa [step, hpc, setPC, List.getElem?_set_ne hij] using h
      | polling =>
        cases href : s.pyodideRef with
        | some hh => simpa [step, hpc, href, setPC, List.getElem?_set_ne hij] using h
        | none => simpa [step, hpc, href] using h
      | done hh => simpa [step, hpc] using h

theorem run_preserves_done (sched : List Nat) : ∀ (s : SysState) (j : Nat),
    s.callers[j]? = some (.done 0) →
    (run s sched).callers[j]? = some (.done 0) := by
  induction sched with
  | nil => intro s j h; exact h
  | cons a t ih =>
    intro s j h
    exact ih (step s a) j (step_preserves_done s a j h)

/-- Stable configuration once the single bootstrap has committed. -/
def Shape (s : SysState) : Prop :=
  s.pyodideRef = some 0 ∧
  ∀ pc ∈ s.callers,
    pc = CallerPC.entry ∨ pc = CallerPC.polling ∨ pc = CallerPC.done 0

theorem shape_step (s : SysState) (i : Nat) (h : Shape s) :
    Shape (step s i) := by
  obtain ⟨href, hpcs⟩ := h
  cases hpc : s.callers[i]? with
  | none =>
    simp only [step, hpc]
    exact ⟨href, hpcs⟩
  | some pc =>
    have hmem := List.getElem?_mem hpc
    rcases hpcs pc hmem with rfl | rfl | rfl
    · simp only [step, hpc, href]
      refine ⟨href, ?_⟩
      intro pc' hpc'
      rcases List.mem_or_eq_of_mem_set hpc' with hold | rfl
      · exact hpcs pc' hold
      · exact Or.inr (Or.inr rfl)
    · simp only [step, hpc, href]
      refine ⟨href, ?_⟩
      intro pc' hpc'
      rcases List.mem_or_eq_of_mem_set hpc' with hold | rfl
      · exact hpcs pc' hold
      · exact Or.inr (Or.inr rfl)
    · simp only [step, hpc]
      exact ⟨href, hpcs⟩

theorem step_completes_at (s : SysState) (i : Nat) (h : Shape s)
    (pc : CallerPC) (hpc : s.callers[i]? = some pc) :
    (step s i).callers[i]? = some (.done 0) := by
  have hi : i < s.callers.length := (List.getElem?_eq_some.mp hpc).1
  obtain ⟨href, hpcs⟩ := h
  rcases hpcs pc (List.getElem?_mem hpc) with rfl | rfl | rfl
  · simp only [step, hpc, href, setPC]
    exact List.getElem?_set_eq_of_lt _ hi
  · simp only [step, hpc, href, setPC]
    exact List.getElem?_set_eq_of_lt _ hi
  · simp only [step, hpc]

theorem run_completes (sched : List Nat) : ∀ (s : SysState), Shape s →
    Shape (run s sched) ∧
    ∀ j ∈ sched, ∀ pc, (run s sched).callers[j]? = some pc →
      pc = CallerPC.done 0 := by
  induction sched with
  | nil =>
    intro s hs
    exact ⟨hs, by intro j hj; simp at hj⟩
  | cons a t ih =>
    intro s hs
    have hs' := shape_step s a hs
    obtain ⟨hsh, hcov⟩ := ih (step s a) hs'
    have hrun : run s (a :: t) = run (step s a) t := rfl
    rw [hrun]
    refine ⟨hsh, ?_⟩
    intro j hj pc hpc2
    rw [List.mem_cons] at hj
    rcases hj with rfl | hj
    · cases hpca : s.callers[j]? with
      | none =>
        exfalso
        have hlen : s.callers.length ≤ j := by
          by_contra hlt
          push_neg at hlt
          rw [List.getElem?_eq_getElem hlt] at hpca
          cases hpca
        have hlen2 : (run (step s j) t).callers.length ≤ j := by
          rw [run_length, step_length]
          exact hlen
        rw [List.getElem?_eq_none hlen2] at hpc2
        cases hpc2
      | some pc0 =>
        have hdone := step_completes_at s j hs pc0 hpca
        have hper := run_preserves_done t (step s j) j hdone
        rw [hper] at hpc2
        cases hpc2
        rfl
    · exact hcov j hj pc hpc2

end PyBoot

/-- C2: runtime initialization is at-most-once.  In the interleaving model
of loadPyodide: (a) every schedule starts at most one bootstrap; (b) a
caller whose atomic entry step observes the in-progress flag (and no ready
handle) moves to polling without starting a bootstrap; (c) in every
schedule under which all N ≥ 1 callers have resolved, exactly one
bootstrap ran and every caller resolved with the same handle; (d) for
every N ≥ 1 a completing schedule exists. -/
theorem claim_C2 :
    (∀ n sched, (PyBoot.run (PyBoot.initState n) sched).boots ≤ 1)
    ∧ (∀ (s : PyBoot.SysState) i, s.callers[i]? = some .entry →
        s.isLoadingPyodide = true → s.pyodideRef = none →
        PyBoot.step s i = PyBoot.setPC s i .polling ∧
        (PyBoot.step s i).boots = s.boots)
    ∧ (∀ n sched, 1 ≤ n →
        (∀ pc ∈ (PyBoot.run (PyBoot.initState n) sched).callers,
          ∃ h, pc = PyBoot.CallerPC.done h) →
        (PyBoot.run (PyBoot.initState n) sched).boots = 1 ∧
        ∀ pc ∈ (PyBoot.run (PyBoot.initState n) sched).callers,
          pc = PyBoot.CallerPC.done 0)
    ∧ (∀ n, 1 ≤ n → ∃ sched,
        ∀ pc ∈ (PyBoot.run (PyBoot.initState n) sched).callers,
          pc = PyBoot.CallerPC.done 0) := by
  refine ⟨?_, ?_, ?_, ?_⟩
  · intro n sched
    exact (PyBoot.inv_run sched (PyBoot.initState n) (PyBoot.inv_init n)).boots_le
  · intro s i hpc hfl href
    constructor
    · simp [PyBoot.step, hpc, href, hfl]
    · simp [PyBoot.step, hpc, href, hfl, PyBoot.setPC]
  · intro n sched hn hdone
    have hinv := PyBoot.inv_run sched (PyBoot.initState n) (PyBoot.inv_init n)
    have hzero : ∀ pc ∈ (PyBoot.run (PyBoot.initState n) sched).callers,
        pc = PyBoot.CallerPC.done 0 := by
      intro pc hpc
      obtain ⟨h, rfl⟩ := hdone pc hpc
      have := (hinv.pcs_zero _ hpc).2 h rfl
      rw [this]
    refine ⟨?_, hzero⟩
    have hlen : (PyBoot.run (PyBoot.initState n) sched).callers.length = n := by
      rw [PyBoot.run_length]
      simp [PyBoot.initState]
    have hb := hinv.boots_le
    by_contra hne
    have hb0 : (PyBoot.run (PyBoot.initState n) sched).boots = 0 := by omega
    have hcold := hinv.cold hb0
    have h0lt : 0 < (PyBoot.run (PyBoot.initState n) sched).callers.length := by
      omega
    have hpc0 := List.getElem?_eq_getElem h0lt
    have hmem := List.getElem?_mem hpc0
    have h1 := hcold.2.2 _ hmem
    have h2 := hzero _ hmem
    rw [h1] at h2
    cases h2
  · intro n hn
    obtain ⟨m, rfl⟩ : ∃ m, n = m + 1 := ⟨n - 1, by omega⟩
    refine ⟨0 :: 0 :: List.range (m + 1), ?_⟩
    have hs1 : PyBoot.step (PyBoot.initState (m + 1)) 0 =
        ⟨none, true, 1, 1,
          PyBoot.CallerPC.bootstrapping 0 :: List.replicate m .entry⟩ := by
      simp [PyBoot.step, PyBoot.initState, List.replicate_succ]
    have hs2 : PyBoot.step ⟨none, true, 1, 1,
        PyBoot.CallerPC.bootstrapping 0 :: List.replicate m .entry⟩ 0 =
        ⟨some 0, false, 1, 1,
          PyBoot.CallerPC.done 0 :: List.replicate m .entry⟩ := by
      simp [PyBoot.step, PyBoot.setPC]
    have hrun : PyBoot.run (PyBoot.initState (m + 1))
        (0 :: 0 :: List.range (m + 1)) =
        PyBoot.run ⟨some 0, false, 1, 1,
          PyBoot.CallerPC.done 0 :: List.replicate m .entry⟩
          (List.range (m + 1)) := by
      show PyBoot.run (PyBoot.step (PyBoot.step (PyBoot.initState (m + 1)) 0) 0)
        (List.range (m + 1)) = _
      rw [hs1, hs2]
    rw [hrun]
    have hshape : PyBoot.Shape ⟨some 0, false, 1, 1,
        PyBoot.CallerPC.done 0 :: List.replicate m .entry⟩ := by
      refine ⟨rfl, ?_⟩
      intro pc hpc
      rw [List.mem_cons] at hpc
      rcases hpc with rfl | hpc
      · exact Or.inr (Or.inr rfl)
      · exact Or.inl (List.eq_of_mem_replicate hpc)
    obtain ⟨-, hcov⟩ := PyBoot.run_completes (List.range (m + 1)) _ hshape
    intro pc hpc
    rw [List.mem_iff_get?] at hpc
    obtain ⟨j, hj⟩ := hpc
    rw [List.get?_eq_getElem?] at hj
    have hjlt : j < (PyBoot.run ⟨some 0, false, 1, 1,
        PyBoot.CallerPC.done 0 :: List.replicate m .entry⟩
        (List.range (m + 1))).callers.length := (List.getElem?_eq_some.mp hj).1
    have hjn : j < m + 1 := by
      rw [PyBoot.run_length] at hjlt
      simpa using hjlt
    exact hcov j (List.mem_range.mpr hjn) pc hj

/-- Witness for C2 at concrete inputs: two callers; the schedule [0]
leaves caller 1 free to observe the in-progress flag; the schedule
[0, 0, 1] completes both callers. -/
theorem claim_C2_witness :
    ((PyBoot.run (PyBoot.initState 2) [0, 1, 0, 1]).boots ≤ 1)
    ∧ (PyBoot.step (PyBoot.run (PyBoot.initState 2) [0]) 1 =
        PyBoot.setPC (PyBoot.run (PyBoot.initState 2) [0]) 1 .polling)
    ∧ ((PyBoot.run (PyBoot.initState 2) [0, 0, 1]).boots = 1 ∧
        ∀ pc ∈ (PyBoot.run (PyBoot.initState 2) [0, 0, 1]).callers,
          pc = PyBoot.CallerPC.done 0)
    ∧ (∃ sched, ∀ pc ∈ (PyBoot.run (PyBoot.initState 2) sched).callers,
        pc = PyBoot.CallerPC.done 0) :=
  ⟨claim_C2.1 2 [0, 1, 0, 1],
   (claim_C2.2.1 (PyBoot.run (PyBoot.initState 2) [0]) 1 (by decide)
     (by decide) (by decide)).1,
   claim_C2.2.2.1 2 [0, 0, 1] (by omega)
     (by
       intro pc hpc
       exact ⟨0, (by decide :
         ∀ x ∈ (PyBoot.run (PyBoot.initState 2) [0, 0, 1]).callers,
           x = PyBoot.CallerPC.done 0) pc hpc⟩),
   claim_C2.2.2.2 2 (by omega)⟩
